import Mathlib

/-!
Verification of the seed-data pipeline of the repository analytical-ecosystem.

Shallow embedding of the seed subsystem (`src/cli/seed/…`) of the
repository: schema registry (`schemas.py`), record generator
(`generators.py`), normalizer (`normalizer.py`), the batch-insert logic
of the DuckDB and Postgres backends (`backends/duckdb.py`,
`backends/postgres.py`) and the control flow of the seeding orchestrator
(`cmd_seed` in `commands.py`).

Modelling conventions:
* Python scalar values are modelled by the inductive `Value`
  (None / int / str / datetime); datetimes are integer epoch seconds, so
  `timedelta(days = d)` is `86400 * d` seconds.
* A Python `dict` record is an association list `Record` with unique keys;
  `setKey`, `popKey`, `getKey?` model `d[k] = v`, `d.pop(k, None)` and
  `d.get(k)`.
* Randomness (the global `Faker` instance) is an oracle `o : Nat → Nat`
  consumed at an advancing index; each random primitive consumes one draw.
  `fake.random_int(min = a, max = b)` with draw `n` is `a + n % (b - a + 1)`;
  `fake.date_time_between(s, e)` with draw `n` is `s + n % (e - s + 1)`.
  The domain-specific faker field functions (`fake.email`, …), whose output
  the verified claims never constrain, are an uninterpreted parameter
  `fk : String → Nat → Value` (field name and consumed draw to value).
* Python exceptions are `Option`/abort results.
-/

set_option maxHeartbeats 1000000

namespace Seed

/-- Python scalar values appearing in seed records: `None`, ints, strings
and `datetime`s (epoch seconds). -/
inductive Value where
  | null : Value
  | int (n : Int) : Value
  | str (s : String) : Value
  | time (t : Int) : Value
deriving DecidableEq, Repr

/-- A Python `dict[str, Any]` record: association list with unique keys,
in insertion order. -/
abbrev Record := List (String × Value)

/-- Model of `d.get(k)` lookup. -/
def getKey? (r : Record) (k : String) : Option Value :=
  (r.find? (fun p => p.1 == k)).map (·.2)

/-- Model of `k in d`. -/
def containsKey (r : Record) (k : String) : Bool :=
  (getKey? r k).isSome

/-- Model of `d[k] = v`: update in place when the key exists (keeping its position),
append otherwise — Python dict assignment semantics. -/
def setKey (r : Record) (k : String) (v : Value) : Record :=
  if containsKey r k then
    r.map (fun p => if p.1 == k then (p.1, v) else p)
  else
    r ++ [(k, v)]

/-- Model of `d.pop(k, None)`: remove the key if present. -/
def popKey (r : Record) (k : String) : Record :=
  r.filter (fun p => p.1 ≠ k)

/-- Python truthiness test (`if not x`) on the values that occur in seed
records: `None`, `0`, and the empty string are falsy. -/
def isFalsy : Value → Bool
  | .null => true
  | .int n => n == 0
  | .str s => s == ""
  | .time _ => false

/-- Model of `record.get(k)` with Python's `None` default. -/
def getDefault (r : Record) (k : String) (d : Value) : Value :=
  (getKey? r k).getD d

/-! ## Record generator (`src/cli/seed/generators.py`) -/

/-- Model of `fake.random_int(min = lo, max = hi)` applied to one oracle draw `n`:
a value in `[lo, hi]`. -/
def randomInt (lo hi : Nat) (n : Nat) : Nat := lo + n % (hi - lo + 1)

/-- Model of `fake.date_time_between(start_date = s, end_date = e)` applied to one
oracle draw `n`: an epoch second in `[s, e]` (when `s ≤ e`). -/
def dateTimeBetween (s e : Int) (n : Nat) : Int := s + (n : Int) % (e - s + 1)

/-- Tests whether `cs` starts with the pattern (helper for the Python `in`
substring test). -/
def charsStartWith : List Char → List Char → Bool
  | [], _ => true
  | _ :: _, [] => false
  | c :: cs, d :: ds => c == d && charsStartWith cs ds

/-- The pattern occurs somewhere in the character list. -/
def charsContain (pat : List Char) : List Char → Bool
  | [] => charsStartWith pat []
  | d :: ds => charsStartWith pat (d :: ds) || charsContain pat ds

/-- Python `pat in s` on strings. -/
def strContains (s pat : String) : Bool := charsContain pat.toList s.toList

/-- A single field definition (`FieldDef` in `schemas.py`); the
`faker_func` member is modelled by the uninterpreted interpretation
`fk : String → Nat → Value` passed to the generator, and the
Elasticsearch type hint is irrelevant to every claim. -/
structure FieldDef where
  name : String
  sql_type : String
  nullable : Bool
deriving DecidableEq, Repr

/-- A schema (`Schema` in `schemas.py`). -/
structure Schema where
  name : String
  table_name : String
  description : String
  time_field : String
  fields : List FieldDef
deriving DecidableEq, Repr

/-- The skip test of `generate_record`:
`field.name == "id" and "SERIAL" in field.sql_type`. -/
def isSkippedField (f : FieldDef) : Bool :=
  f.name == "id" && strContains f.sql_type "SERIAL"

/-- One field's value generation inside `DataGenerator.generate_record`
(`generators.py` lines 41–56, the branch before the nullable overwrite):
draw the time field from the window; derive another `TIMESTAMP` field from
the time field plus a 0–30 day offset, falling back to the window when the
time field is not yet in the record and raising (`none`, Python
`TypeError`) when its value is not a datetime; otherwise call the field's
faker function. -/
def genValue (fk : String → Nat → Value) (o : Nat → Nat) (tf : String)
    (s e : Int) (f : FieldDef) (rec : Record) (i : Nat) :
    Option (Record × Nat) :=
  if f.name == tf then
    some (setKey rec f.name (.time (dateTimeBetween s e (o i))), i + 1)
  else if f.sql_type == "TIMESTAMP" then
    match getKey? rec tf with
    | some (.time t) =>
        some (setKey rec f.name
          (.time (t + 86400 * (randomInt 0 30 (o i) : Int))), i + 1)
    | some _ => none
    | none =>
        some (setKey rec f.name (.time (dateTimeBetween s e (o i))), i + 1)
  else
    some (setKey rec f.name (fk f.name (o i)), i + 1)

/-- One full loop iteration of `generate_record` for a non-skipped field:
the value generation followed by the nullable overwrite
(`generators.py` lines 58–60: with a fresh `random_int(1, 10)` draw at
most 2, the value is replaced by `None`). -/
def genOne (fk : String → Nat → Value) (o : Nat → Nat) (tf : String)
    (s e : Int) (f : FieldDef) (rec : Record) (i : Nat) :
    Option (Record × Nat) :=
  match genValue fk o tf s e f rec i with
  | none => none
  | some (rec₁, i₁) =>
    if f.nullable then
      if randomInt 1 10 (o i₁) ≤ 2 then
        some (setKey rec₁ f.name .null, i₁ + 1)
      else
        some (rec₁, i₁ + 1)
    else
      some (rec₁, i₁)

/-- The field loop of `DataGenerator.generate_record`
(`generators.py` lines 36–61), one `genOne` iteration per field, skipping
auto-increment id fields. -/
def genFields (fk : String → Nat → Value) (o : Nat → Nat) (tf : String)
    (s e : Int) : List FieldDef → Record → Nat → Option (Record × Nat)
  | [], rec, i => some (rec, i)
  | f :: fs, rec, i =>
    if isSkippedField f then
      genFields fk o tf s e fs rec i
    else
      match genOne fk o tf s e f rec i with
      | none => none
      | some (rec₁, i₁) => genFields fk o tf s e fs rec₁ i₁

/-- Model of `DataGenerator.generate_record` on schema `sc` with window `[s, e]`,
faker interpretation `fk`, and oracle `o` starting at index `i`. -/
def generate_record (fk : String → Nat → Value) (sc : Schema) (s e : Int)
    (o : Nat → Nat) (i : Nat) : Option (Record × Nat) :=
  genFields fk o sc.time_field s e sc.fields [] i

/-- The batch sizes yielded by `DataGenerator.generate_batches(total,
batch_size)` (`generators.py` lines 68–78): `min(batch_size, remaining)`
while records remain. (For `batch_size = 0` and positive `total` the
Python loop does not terminate; the vacuous `else` branch is never the
subject of a claim.) -/
def generate_batches_sizes (total batch_size : Nat) : List Nat :=
  if _h : 0 < total ∧ 0 < batch_size then
    min batch_size total :: generate_batches_sizes (total - min batch_size total) batch_size
  else
    []
termination_by total
decreasing_by
  omega

/-! ## The schema registry (`src/cli/seed/schemas.py`) -/

/-- The `contacts` schema. -/
def CONTACTS : Schema :=
  { name := "contacts", table_name := "contacts",
    description := "Customer and business contacts",
    time_field := "created_at",
    fields :=
      [ ⟨"id", "SERIAL PRIMARY KEY", false⟩,
        ⟨"first_name", "VARCHAR(100)", false⟩,
        ⟨"last_name", "VARCHAR(100)", false⟩,
        ⟨"email", "VARCHAR(255)", false⟩,
        ⟨"phone", "VARCHAR(50)", false⟩,
        ⟨"company", "VARCHAR(255)", false⟩,
        ⟨"job_title", "VARCHAR(255)", false⟩,
        ⟨"address", "VARCHAR(255)", false⟩,
        ⟨"city", "VARCHAR(100)", false⟩,
        ⟨"state", "VARCHAR(50)", false⟩,
        ⟨"postal_code", "VARCHAR(20)", false⟩,
        ⟨"country", "VARCHAR(100)", false⟩,
        ⟨"created_at", "TIMESTAMP", false⟩,
        ⟨"updated_at", "TIMESTAMP", false⟩ ] }

/-- The `sales_orders` schema. -/
def SALES_ORDERS : Schema :=
  { name := "sales_orders", table_name := "sales_orders",
    description := "Sales order records",
    time_field := "order_date",
    fields :=
      [ ⟨"id", "SERIAL PRIMARY KEY", false⟩,
        ⟨"order_number", "VARCHAR(50) UNIQUE", false⟩,
        ⟨"customer_name", "VARCHAR(255)", false⟩,
        ⟨"customer_email", "VARCHAR(255)", false⟩,
        ⟨"customer_phone", "VARCHAR(50)", false⟩,
        ⟨"order_date", "TIMESTAMP", false⟩,
        ⟨"ship_date", "TIMESTAMP", true⟩,
        ⟨"status", "VARCHAR(50)", false⟩,
        ⟨"subtotal", "DECIMAL(12,2)", false⟩,
        ⟨"tax", "DECIMAL(12,2)", false⟩,
        ⟨"shipping", "DECIMAL(12,2)", false⟩,
        ⟨"total", "DECIMAL(12,2)", false⟩,
        ⟨"shipping_address", "VARCHAR(255)", false⟩,
        ⟨"shipping_city", "VARCHAR(100)", false⟩,
        ⟨"shipping_state", "VARCHAR(50)", false⟩,
        ⟨"shipping_postal_code", "VARCHAR(20)", false⟩,
        ⟨"payment_method", "VARCHAR(50)", false⟩,
        ⟨"notes", "TEXT", true⟩,
        ⟨"created_at", "TIMESTAMP", false⟩ ] }

/-- The `manufacturing_orders` schema. -/
def MANUFACTURING_ORDERS : Schema :=
  { name := "manufacturing_orders", table_name := "manufacturing_orders",
    description := "Production work orders",
    time_field := "scheduled_start",
    fields :=
      [ ⟨"id", "SERIAL PRIMARY KEY", false⟩,
        ⟨"work_order_number", "VARCHAR(50) UNIQUE", false⟩,
        ⟨"product_name", "VARCHAR(255)", false⟩,
        ⟨"product_sku", "VARCHAR(50)", false⟩,
        ⟨"quantity", "INTEGER", false⟩,
        ⟨"unit_of_measure", "VARCHAR(50)", false⟩,
        ⟨"scheduled_start", "TIMESTAMP", false⟩,
        ⟨"scheduled_end", "TIMESTAMP", false⟩,
        ⟨"actual_start", "TIMESTAMP", true⟩,
        ⟨"actual_end", "TIMESTAMP", true⟩,
        ⟨"status", "VARCHAR(50)", false⟩,
        ⟨"priority", "VARCHAR(20)", false⟩,
        ⟨"assigned_to", "VARCHAR(255)", false⟩,
        ⟨"work_center", "VARCHAR(50)", false⟩,
        ⟨"notes", "TEXT", true⟩,
        ⟨"created_at", "TIMESTAMP", false⟩ ] }

/-- The `products` schema. -/
def PRODUCTS : Schema :=
  { name := "products", table_name := "products",
    description := "Product catalog and inventory",
    time_field := "created_at",
    fields :=
      [ ⟨"id", "SERIAL PRIMARY KEY", false⟩,
        ⟨"sku", "VARCHAR(50) UNIQUE", false⟩,
        ⟨"name", "VARCHAR(255)", false⟩,
        ⟨"description", "TEXT", false⟩,
        ⟨"category", "VARCHAR(100)", false⟩,
        ⟨"unit_price", "DECIMAL(12,2)", false⟩,
        ⟨"cost_price", "DECIMAL(12,2)", false⟩,
        ⟨"quantity_on_hand", "INTEGER", false⟩,
        ⟨"reorder_level", "INTEGER", false⟩,
        ⟨"supplier_name", "VARCHAR(255)", false⟩,
        ⟨"supplier_contact", "VARCHAR(255)", false⟩,
        ⟨"is_active", "BOOLEAN", false⟩,
        ⟨"created_at", "TIMESTAMP", false⟩,
        ⟨"updated_at", "TIMESTAMP", false⟩ ] }

/-- The `invoices` schema. -/
def INVOICES : Schema :=
  { name := "invoices", table_name := "invoices",
    description := "Financial invoices and payments",
    time_field := "invoice_date",
    fields :=
      [ ⟨"id", "SERIAL PRIMARY KEY", false⟩,
        ⟨"invoice_number", "VARCHAR(50) UNIQUE", false⟩,
        ⟨"customer_name", "VARCHAR(255)", false⟩,
        ⟨"customer_email", "VARCHAR(255)", false⟩,
        ⟨"invoice_date", "TIMESTAMP", false⟩,
        ⟨"due_date", "TIMESTAMP", false⟩,
        ⟨"status", "VARCHAR(50)", false⟩,
        ⟨"line_items_json", "TEXT", false⟩,
        ⟨"subtotal", "DECIMAL(12,2)", false⟩,
        ⟨"tax_rate", "DECIMAL(5,4)", false⟩,
        ⟨"tax_amount", "DECIMAL(12,2)", false⟩,
        ⟨"total", "DECIMAL(12,2)", false⟩,
        ⟨"payment_date", "TIMESTAMP", true⟩,
        ⟨"payment_method", "VARCHAR(50)", true⟩,
        ⟨"notes", "TEXT", true⟩,
        ⟨"created_at", "TIMESTAMP", false⟩ ] }

/-- The registry `SCHEMAS` of `schemas.py`, in its insertion order. -/
def SCHEMAS : List (String × Schema) :=
  [ ("contacts", CONTACTS),
    ("sales_orders", SALES_ORDERS),
    ("manufacturing_orders", MANUFACTURING_ORDERS),
    ("products", PRODUCTS),
    ("invoices", INVOICES) ]

/-- The registered schemas themselves. -/
def registrySchemas : List Schema := SCHEMAS.map (·.2)

/-! ## Normalizer (`src/cli/seed/normalizer.py`) -/

/-- A customer entity dict (`{"id", "name", "email", "phone"}`) built by
`DataNormalizer._extract_customer`. -/
structure CustomerRec where
  cid : Nat
  cname : Value
  cemail : Value
  cphone : Value
deriving DecidableEq, Repr

/-- A product entity dict (`{"id", "sku", "name"}`) built by
`DataNormalizer._extract_product`. -/
structure ProductRec where
  pid : Nat
  psku : Value
  pname : Value
deriving DecidableEq, Repr

/-- The mutable state of one `DataNormalizer` instance: the two
insertion-ordered dicts keyed by email / SKU, and the two surrogate-id
counters. -/
structure NormState where
  customers : List (Value × CustomerRec)
  products : List (Value × ProductRec)
  customer_id_counter : Nat
  product_id_counter : Nat
deriving DecidableEq, Repr

/-- Model of `DataNormalizer.__init__`. -/
def initNormState : NormState := ⟨[], [], 1, 1⟩

/-- Lookup in an insertion-ordered dict keyed by `Value`. -/
def lookupEntry {α : Type} (l : List (Value × α)) (k : Value) : Option α :=
  (l.find? (fun p => p.1 == k)).map (·.2)

/-- Model of `DataNormalizer._extract_customer` (`normalizer.py` lines 15–36). -/
def _extract_customer (st : NormState) (record : Record) :
    NormState × Option Nat :=
  let customer_email := (getKey? record "customer_email").getD .null
  if isFalsy customer_email then (st, none)
  else
    match lookupEntry st.customers customer_email with
    | some c => (st, some c.cid)
    | none =>
      let c : CustomerRec :=
        ⟨st.customer_id_counter,
         getDefault record "customer_name" (.str ""),
         customer_email,
         getDefault record "customer_phone" (.str "")⟩
      ({ st with
          customers := st.customers ++ [(customer_email, c)],
          customer_id_counter := st.customer_id_counter + 1 },
       some c.cid)

/-- The record's effective SKU, `record.get("product_sku") or
record.get("sku")` of `normalizer.py` line 41: the Python `or` of the
two lookups (`None` when a key is absent). -/
def skuOf (r : Record) : Value :=
  let a := (getKey? r "product_sku").getD .null
  if isFalsy a then (getKey? r "sku").getD .null else a

/-- The record's effective product name, `record.get("product_name") or
record.get("name", "")` of `normalizer.py` line 53. -/
def pnameOf (r : Record) : Value :=
  let b := (getKey? r "product_name").getD .null
  if isFalsy b then getDefault r "name" (.str "") else b

/-- Model of `DataNormalizer._extract_product` (`normalizer.py` lines 38–58);
the dedup key is `skuOf` and the stored name `pnameOf`. -/
def _extract_product (st : NormState) (record : Record) :
    NormState × Option Nat :=
  let product_sku := skuOf record
  if isFalsy product_sku then (st, none)
  else
    match lookupEntry st.products product_sku with
    | some c => (st, some c.pid)
    | none =>
      let c : ProductRec := ⟨st.product_id_counter, product_sku, pnameOf record⟩
      ({ st with
          products := st.products ++ [(product_sku, c)],
          product_id_counter := st.product_id_counter + 1 },
       some c.pid)

/-- Model of `DataNormalizer.normalize_record` (`normalizer.py` lines 60–89):
start from a copy of the record, route on the schema name, attach the
foreign key and strip the denormalized fields when an entity id was
resolved (a Python truthy id, i.e. nonzero). -/
def normalize_record (st : NormState) (record : Record)
    (schema_name : String) : NormState × Record :=
  let normalized := record
  let step1 : NormState × Record :=
    if schema_name == "sales_orders" || schema_name == "invoices" then
      match _extract_customer st record with
      | (st', some cid) =>
        if cid ≠ 0 then
          (st', popKey (popKey (popKey
            (setKey normalized "customer_id" (.int cid)) "customer_name")
            "customer_email") "customer_phone")
        else (st', normalized)
      | (st', none) => (st', normalized)
    else (st, normalized)
  let st₁ := step1.1
  let normalized₁ := step1.2
  if schema_name == "manufacturing_orders" then
    match _extract_product st₁ record with
    | (st', some pid) =>
      if pid ≠ 0 then
        (st', popKey (popKey
          (setKey normalized₁ "product_id" (.int pid)) "product_name")
          "product_sku")
      else (st', normalized₁)
    | (st', none) => (st', normalized₁)
  else (st₁, normalized₁)

/-- Model of `get_customers_table`: the customers dict values in insertion order. -/
def get_customers_table (st : NormState) : List CustomerRec :=
  st.customers.map (·.2)

/-- Model of `get_products_table`: the products dict values in insertion order. -/
def get_products_table (st : NormState) : List ProductRec :=
  st.products.map (·.2)

/-- Normalizing a sequence of records through one `DataNormalizer`
instance, in order, collecting the outputs. -/
def normalizeAll (st : NormState) (schema_name : String) :
    List Record → NormState × List Record
  | [] => (st, [])
  | r :: rs =>
    let p := normalize_record st r schema_name
    let q := normalizeAll p.1 schema_name rs
    (q.1, p.2 :: q.2)

/-- The record's `customer_email` value (Python `None` when absent). -/
def emailOf (r : Record) : Value := (getKey? r "customer_email").getD .null

/-- The distinct values of a list in first-seen order, those in `seen`
excluded (specification-side helper for the dedup claims). -/
def dedupFirst (seen : List Value) : List Value → List Value
  | [] => []
  | a :: l => if a ∈ seen then dedupFirst seen l else a :: dedupFirst (seen ++ [a]) l

/-- The truthy (non-falsy) values of a list: the dedup keys the
normalizer actually registers, since a falsy key aborts extraction. -/
def truthyKeys (l : List Value) : List Value :=
  l.filter (fun e => !(isFalsy e))

/-- Specification-side mirror of the customer extraction over a record
sequence: records with a falsy email are skipped; otherwise one entry
per first-seen email not already known, with sequential ids from `n`
and the attributes of the sighting record. -/
def extractAllC (known : List Value) (n : Nat) : List Record → List (Value × CustomerRec)
  | [] => []
  | r :: rs =>
    let e := emailOf r
    if isFalsy e then extractAllC known n rs
    else if e ∈ known then extractAllC known n rs
    else
      (e, ⟨n, getDefault r "customer_name" (.str ""), e,
            getDefault r "customer_phone" (.str "")⟩)
        :: extractAllC (known ++ [e]) (n + 1) rs

/-- Specification-side mirror of the product extraction over a record
sequence: records with a falsy SKU are skipped; otherwise one entry per
first-seen SKU not already known, with sequential ids from `n` and the
name of the sighting record. -/
def extractAllP (known : List Value) (n : Nat) : List Record → List (Value × ProductRec)
  | [] => []
  | r :: rs =>
    let k := skuOf r
    if isFalsy k then extractAllP known n rs
    else if k ∈ known then extractAllP known n rs
    else
      (k, ⟨n, k, pnameOf r⟩) :: extractAllP (known ++ [k]) (n + 1) rs

/-- One `DataNormalizer` session as `cmd_seed` drives it schema by
schema: the instance first normalizes a batch of `sales_orders` records,
then a batch of `manufacturing_orders` records. Returns the final
normalizer state and the two output lists. -/
def normalizeSession (recs prods : List Record) :
    NormState × List Record × List Record :=
  let p := normalizeAll initNormState "sales_orders" recs
  let q := normalizeAll p.1 "manufacturing_orders" prods
  (q.1, p.2, q.2)

/-! ## A heap model of `normalize_record` for the frame claim

Python dicts are mutable heap objects. To state that `normalize_record`
never mutates its argument, the record is addressed through a heap of
dict cells: `record.copy()` allocates a fresh cell and every subsequent
`normalized[...] = ...` / `normalized.pop(...)` mutates that fresh cell
in place, exactly as the statements of `normalizer.py` lines 69–89 do. -/

/-- The Python heap restricted to dict cells. -/
abbrev Heap := List Record

/-- Dereference a cell. -/
def heapGet (h : Heap) (ref : Nat) : Record := (h.get? ref).getD []

/-- In-place mutation of a cell. -/
def heapSet (h : Heap) (ref : Nat) (r : Record) : Heap := h.set ref r

/-- Model of `DataNormalizer.normalize_record` with the record and its copy as heap
cells: reads the input at `ref`, allocates the copy, and performs each
key assignment and pop as an in-place update of the copy's cell.
Returns the updated normalizer state, the heap, and the copy's
reference. -/
def normalize_record_heap (st : NormState) (h : Heap) (ref : Nat)
    (schema_name : String) : NormState × Heap × Nat :=
  let record := heapGet h ref
  let nref := h.length
  let h₀ := h ++ [record]
  let step1 : NormState × Heap :=
    if schema_name == "sales_orders" || schema_name == "invoices" then
      match _extract_customer st record with
      | (st', some cid) =>
        if cid ≠ 0 then
          let h₁ := heapSet h₀ nref
            (setKey (heapGet h₀ nref) "customer_id" (.int cid))
          let h₂ := heapSet h₁ nref (popKey (heapGet h₁ nref) "customer_name")
          let h₃ := heapSet h₂ nref (popKey (heapGet h₂ nref) "customer_email")
          let h₄ := heapSet h₃ nref (popKey (heapGet h₃ nref) "customer_phone")
          (st', h₄)
        else (st', h₀)
      | (st', none) => (st', h₀)
    else (st, h₀)
  let st₁ := step1.1
  let hA := step1.2
  if schema_name == "manufacturing_orders" then
    match _extract_product st₁ record with
    | (st', some pid) =>
      if pid ≠ 0 then
        let h₁ := heapSet hA nref
          (setKey (heapGet hA nref) "product_id" (.int pid))
        let h₂ := heapSet h₁ nref (popKey (heapGet h₁ nref) "product_name")
        let h₃ := heapSet h₂ nref (popKey (heapGet h₂ nref) "product_sku")
        (st', h₃, nref)
      else (st', hA, nref)
    | (st', none) => (st', hA, nref)
  else (st₁, hA, nref)

/-! ## Backend `insert_batch` models (`backends/duckdb.py`, `backends/postgres.py`)

A SQL table is its current list of rows plus the set of columns carrying
a UNIQUE (or PRIMARY KEY) constraint. A row conflicts when some unique
column holds the same non-null value as an existing row; `INSERT OR
IGNORE` / `ON CONFLICT DO NOTHING` skip exactly the conflicting rows —
that shared engine semantics is `insertOrIgnoreRow`. -/

/-- A table with its unique-constrained columns. -/
structure SqlTable where
  uniqueCols : List String
  rows : List Record
deriving Repr

/-- Does `r` violate a unique constraint against the current rows? -/
def rowConflicts (t : SqlTable) (r : Record) : Bool :=
  t.rows.any (fun row => t.uniqueCols.any (fun c =>
    match getKey? row c, getKey? r c with
    | some v, some w => v == w && !(v == .null)
    | _, _ => false))

/-- Engine semantics of one conflict-skipping insert. -/
def insertOrIgnoreRow (t : SqlTable) (r : Record) : SqlTable × Nat :=
  if rowConflicts t r then (t, 0)
  else ({ t with rows := t.rows ++ [r] }, 1)

/-- Engine semantics of a conflict-skipping multi-row insert, returning
the table and the number of rows actually persisted. -/
def insertOrIgnoreAll (t : SqlTable) (rs : List Record) : SqlTable × Nat :=
  match rs with
  | [] => (t, 0)
  | r :: rs' =>
    let p := insertOrIgnoreRow t r
    let q := insertOrIgnoreAll p.1 rs'
    (q.1, p.2 + q.2)

/-- The per-table auto-increment id assignment of
`DuckDBBackend.insert_batch` (`duckdb.py` lines 161–176): when the first
record has no `id` (or some record has a null `id`), ids are assigned
from a counter seeded at `max(id) + 1`, here abstracted by the counter
value `next_id` the backend holds for the table. -/
def assignIds (next_id : Nat) : List Record → List Record × Nat
  | [] => ([], next_id)
  | r :: rs =>
    if getKey? r "id" = none ∨ getKey? r "id" = some .null then
      let p := assignIds (next_id + 1) rs
      (setKey r "id" (.int next_id) :: p.1, p.2)
    else
      let p := assignIds next_id rs
      (r :: p.1, p.2)

/-- Model of `DuckDBBackend.insert_batch` (`duckdb.py` lines 145–197): assign
missing ids, run one `INSERT OR IGNORE` executemany, and return
`len(records)` — the batch length, regardless of how many rows the
engine skipped. -/
def duckdb_insert_batch (t : SqlTable) (next_id : Nat)
    (records : List Record) : SqlTable × Nat × Nat :=
  if records.isEmpty then (t, next_id, 0)
  else
    let needs_id := ¬ containsKey (records.headD []) "id"
    let has_null_id := records.any (fun r => (getKey? r "id").getD .null == .null)
    let pr :=
      if needs_id ∨ has_null_id then assignIds next_id records
      else (records, next_id)
    let q := insertOrIgnoreAll t pr.1
    (q.1, pr.2, records.length)

/-- Model of `PostgresBackend.insert_batch` (`postgres.py` lines 183–223): take
the column list from the first record's keys minus `id` (line 201),
project every record onto those columns (`record.get(col)`, so `None`
for a key the record lacks), insert row by row with `ON CONFLICT DO
NOTHING`, and sum the per-statement `cursor.rowcount` (1 for an
inserted row, 0 for a conflict-skipped one). -/
def postgres_insert_batch (t : SqlTable) (records : List Record) :
    SqlTable × Nat :=
  if records.isEmpty then (t, 0)
  else
    let columns := ((records.headD []).map (·.1)).filter (fun k => !(k == "id"))
    insertOrIgnoreAll t (records.map (fun r =>
      columns.map (fun c => (c, (getKey? r c).getD .null))))

/-! ## The seeding session of `cmd_seed` (`commands.py` lines 419–568)

The backend is abstracted by the outcome of each of its operations
(`Behavior`); the session body from the normalization-support check to
the `except` handlers is a sequence in the `Except` monad whose error
short-circuiting models Python exception propagation to the handlers at
lines 561–568. The run records the trace of attempted backend calls and
the user-facing messages. -/

/-- One backend call, as recorded in the session trace. -/
inductive SeedOp where
  | opConnect : SeedOp
  | opDrop (table : String) : SeedOp
  | opCreateNorm : SeedOp
  | opCreateTable : SeedOp
  | opInsertEntities : SeedOp
  | opInsert (batch : Nat) : SeedOp
  | opCount : SeedOp
  | opDisconnect : SeedOp
deriving DecidableEq, Repr

/-- The user-facing messages the claims care about. -/
inductive SeedMsg where
  | warnFlatMode : SeedMsg
  | errorReport : SeedMsg
  | successReport : SeedMsg
deriving DecidableEq, Repr

/-- The chosen backend, abstracted by the outcome of each operation
(`true` / `some` = the call returns, otherwise it raises). `insert_ok i`
is the outcome of the `i`-th `insert_batch` call. -/
structure Behavior where
  supports_normalization : Bool
  connect_ok : Bool
  drop_ok : String → Bool
  create_norm_ok : Bool
  create_ok : Bool
  insert_entities_ok : Bool
  insert_ok : Nat → Bool
  count_ok : Bool
  disconnect_ok : Bool

/-- The arguments of one seeding session, past validation:
`has_entities` abstracts whether the normalizer extracted any entities
from the generated data (the `if customers or products` test). -/
structure SeedArgs where
  normalize : Bool
  clear : Bool
  table_name : String
  count : Nat
  batch_size : Nat
  has_entities : Bool

/-- The trace and messages accumulated by a run. -/
structure RunSt where
  trace : List SeedOp
  msgs : List SeedMsg
deriving DecidableEq, Repr

/-- Attempt one backend call: record it; on failure, raise out of the
`try` block (the handler appends the error report). -/
def attemptOp (ok : Bool) (op : SeedOp) (st : RunSt) : Except RunSt RunSt :=
  let st' : RunSt := { st with trace := st.trace ++ [op] }
  if ok then .ok st'
  else .error { st' with msgs := st'.msgs ++ [SeedMsg.errorReport] }

/-- The clear step (`commands.py` lines 438–450): the drops sit in an
inner `try` whose `except` swallows any failure, so a failing drop skips
the remaining drops but never aborts the session. -/
def clearStep (b : Behavior) (doClear norm : Bool) (tbl : String)
    (st : RunSt) : RunSt :=
  if doClear then
    if b.drop_ok tbl then
      if norm then
        if b.drop_ok "customers" then
          { st with trace := st.trace ++
              [.opDrop tbl, .opDrop "customers", .opDrop "products_normalized"] }
        else
          { st with trace := st.trace ++ [.opDrop tbl, .opDrop "customers"] }
      else { st with trace := st.trace ++ [.opDrop tbl] }
    else { st with trace := st.trace ++ [.opDrop tbl] }
  else st

/-- The per-batch insert loop over the generated batches, aborting at the
first raising `insert_batch`. -/
def insertLoop (b : Behavior) : Nat → Nat → RunSt → Except RunSt RunSt
  | 0, _, st => .ok st
  | n + 1, i, st =>
    match attemptOp (b.insert_ok i) (.opInsert i) st with
    | .error st' => .error st'
    | .ok st' => insertLoop b n (i + 1) st'

/-- The `try` block of `cmd_seed` (after the normalization-support
demotion at lines 419–424): connect, optionally clear, create the
normalized entity tables then the main table, insert entities when
normalizing, insert every batch, read the final count, and disconnect;
any raising call propagates (the `.error` arm) straight to the `except`
handlers. -/
def seedBody (b : Behavior) (a : SeedArgs) (st : RunSt) :
    Except RunSt RunSt :=
  let norm := a.normalize && b.supports_normalization
  let tbl := if norm then a.table_name ++ "_normalized" else a.table_name
  match attemptOp b.connect_ok .opConnect st with
  | .error e => .error e
  | .ok st1 =>
    let st2 := clearStep b a.clear norm tbl st1
    match (if norm then attemptOp b.create_norm_ok .opCreateNorm st2
           else .ok st2) with
    | .error e => .error e
    | .ok st3 =>
      match attemptOp b.create_ok .opCreateTable st3 with
      | .error e => .error e
      | .ok st4 =>
        match (if norm && a.has_entities then
                 attemptOp b.insert_entities_ok .opInsertEntities st4
               else .ok st4) with
        | .error e => .error e
        | .ok st5 =>
          match insertLoop b
              (generate_batches_sizes a.count a.batch_size).length 0 st5 with
          | .error e => .error e
          | .ok st6 =>
            match attemptOp b.count_ok .opCount st6 with
            | .error e => .error e
            | .ok st7 =>
              match attemptOp b.disconnect_ok .opDisconnect st7 with
              | .error e => .error e
              | .ok st8 =>
                .ok { st8 with msgs := st8.msgs ++ [SeedMsg.successReport] }

/-- Model of the session of `cmd_seed` from the normalization-support check onward:
demote to flat mode with a warning when the backend lacks normalization
support, run the `try` block, and map the `Except` error to the handlers
of lines 561–568 (report and return `False`, with no disconnect and no
retry). Returns success, the backend-call trace, and the messages. -/
def cmd_seed_run (b : Behavior) (a : SeedArgs) : Bool × RunSt :=
  let st0 : RunSt :=
    ⟨[], if a.normalize && !b.supports_normalization then [.warnFlatMode] else []⟩
  match seedBody b a st0 with
  | .ok st => (true, st)
  | .error st => (false, st)

/-- Does operation `op` raise, according to the behavior? -/
def opFails (b : Behavior) : SeedOp → Bool
  | .opConnect => !b.connect_ok
  | .opDrop t => !(b.drop_ok t)
  | .opCreateNorm => !b.create_norm_ok
  | .opCreateTable => !b.create_ok
  | .opInsertEntities => !b.insert_entities_ok
  | .opInsert i => !(b.insert_ok i)
  | .opCount => !b.count_ok
  | .opDisconnect => !b.disconnect_ok

/-- Model of `DataGenerator.generate_batch(count)`: `count` calls of
`generate_record` in sequence (`generators.py` lines 64–66). -/
def generate_batch (fk : String → Nat → Value) (sc : Schema) (s e : Int)
    (o : Nat → Nat) : Nat → Nat → Option (List Record × Nat)
  | 0, i => some ([], i)
  | n + 1, i =>
    match generate_record fk sc s e o i with
    | none => none
    | some (r, i') =>
      match generate_batch fk sc s e o n i' with
      | none => none
      | some (rs, i'') => some (r :: rs, i'')

/-- Concrete records for the C4 witness: four sales orders over two
distinct customer emails, one record without any email. -/
def c4recs : List Record :=
  [[("customer_email", .str "a@x.com"), ("customer_name", .str "Alice"),
    ("customer_phone", .str "111")],
   [("order_number", .str "ORD-1")],
   [("customer_email", .str "a@x.com"), ("customer_name", .str "Alia")],
   [("customer_email", .str "b@y.com"), ("customer_name", .str "Bob")]]

/-- Concrete records for the C4 witness: four manufacturing orders over
two distinct SKUs (one via the `sku` fallback key), one record without
any SKU. -/
def c4prods : List Record :=
  [[("product_sku", .str "SKU-1"), ("product_name", .str "Widget")],
   [("sku", .str "SKU-2"), ("name", .str "Gadget")],
   [("product_sku", .str "SKU-1"), ("product_name", .str "Widget v2")],
   [("quantity", .int 5)]]

/-- A backend whose `create_table` raises while everything else works. -/
def failingCreateBehavior : Behavior :=
  { supports_normalization := true, connect_ok := true,
    drop_ok := fun _ => true, create_norm_ok := true, create_ok := false,
    insert_entities_ok := true, insert_ok := fun _ => true,
    count_ok := true, disconnect_ok := true }

/-- A plain flat seeding invocation. -/
def flatSeedArgs : SeedArgs :=
  { normalize := false, clear := false, table_name := "contacts",
    count := 10, batch_size := 5, has_entities := false }

/-- A healthy backend without normalization support (the Elasticsearch
case, `supports_normalization = False`). -/
def noNormBehavior : Behavior :=
  { supports_normalization := false, connect_ok := true,
    drop_ok := fun _ => true, create_norm_ok := true, create_ok := true,
    insert_entities_ok := true, insert_ok := fun _ => true,
    count_ok := true, disconnect_ok := true }

/-- A seeding invocation requesting normalization. -/
def normSeedArgs : SeedArgs :=
  { normalize := true, clear := false, table_name := "contacts",
    count := 10, batch_size := 5, has_entities := false }

/-! ## Proofs -/

theorem fst_updateEntry (k : String) (v : Value) (p : String × Value) :
    ((if p.1 == k then (p.1, v) else p) : String × Value).1 = p.1 := by
  split <;> rfl

theorem find?_setKey_map (r : Record) (k k' : String) (v : Value) :
    (r.map (fun p => if p.1 == k then (p.1, v) else p)).find? (fun p => p.1 == k')
      = (r.find? (fun p => p.1 == k')).map (fun p => if p.1 == k then (p.1, v) else p) := by
  rw [List.find?_map]
  have hp : ((fun p : String × Value => p.1 == k') ∘
        fun p : String × Value => if p.1 == k then (p.1, v) else p)
      = fun p : String × Value => p.1 == k' := by
    funext p
    simp only [Function.comp_apply, fst_updateEntry]
  rw [hp]

theorem find?_eq_none_of_not_contains (r : Record) (k : String)
    (h : ¬ containsKey r k = true) : r.find? (fun p => p.1 == k) = none := by
  unfold containsKey getKey? at h
  cases hf : r.find? (fun p => p.1 == k) with
  | none => rfl
  | some q => rw [hf] at h; simp at h

theorem getKey?_setKey_self (r : Record) (k : String) (v : Value) :
    getKey? (setKey r k v) k = some v := by
  unfold setKey
  split
  · next h =>
    unfold containsKey at h
    unfold getKey? at h ⊢
    rw [find?_setKey_map]
    cases hf : r.find? (fun p => p.1 == k) with
    | none => rw [hf] at h; simp at h
    | some q =>
      have hq := List.find?_some hf
      simp only [beq_iff_eq] at hq
      simp [hq]
  · next h =>
    unfold getKey?
    rw [List.find?_append, find?_eq_none_of_not_contains r k h]
    simp [List.find?]

theorem getKey?_setKey_ne (r : Record) (k k' : String) (v : Value)
    (h : k' ≠ k) : getKey? (setKey r k v) k' = getKey? r k' := by
  unfold setKey
  split
  · unfold getKey?
    rw [find?_setKey_map]
    cases hf : r.find? (fun p => p.1 == k') with
    | none => rfl
    | some q =>
      have hq := List.find?_some hf
      simp only [beq_iff_eq] at hq
      have hq' : ¬ q.1 = k := by
        rw [hq]; exact h
      simp [hq']
  · unfold getKey?
    rw [List.find?_append]
    have hnil : List.find? (fun p => p.1 == k') [(k, v)] = none := by
      rw [List.find?_cons_of_neg _ (by simp; exact Ne.symm h)]
      rfl
    rw [hnil]
    simp

theorem containsKey_setKey (r : Record) (k k' : String) (v : Value) :
    containsKey (setKey r k v) k' = (containsKey r k' || k' == k) := by
  by_cases h : k' = k
  · subst h
    simp [containsKey, getKey?_setKey_self]
  · simp [containsKey, getKey?_setKey_ne r k k' v h, h]

theorem dateTimeBetween_bounds (s e : Int) (n : Nat) (h : s ≤ e) :
    s ≤ dateTimeBetween s e n ∧ dateTimeBetween s e n ≤ e := by
  unfold dateTimeBetween
  have hm : (0 : Int) < e - s + 1 := by omega
  constructor
  · have := Int.emod_nonneg (n : Int) (by omega : e - s + 1 ≠ 0)
    omega
  · have := Int.emod_lt_of_pos (n : Int) hm
    omega

theorem randomInt_le (lo hi n : Nat) (h : lo ≤ hi) :
    lo ≤ randomInt lo hi n ∧ randomInt lo hi n ≤ hi := by
  unfold randomInt
  have : n % (hi - lo + 1) < hi - lo + 1 := Nat.mod_lt _ (by omega)
  omega

/-! ## General lemmas about the generator loop -/

theorem map_update_self (r : Record) (k : String)
    (h : r.find? (fun p => p.1 == k) = none) (v : Value) :
    r.map (fun p => if p.1 == k then (p.1, v) else p) = r := by
  have hall := List.find?_eq_none.mp h
  conv_rhs => rw [← List.map_id r]
  apply List.map_congr_left
  intro p hp
  have hne : ¬ (p.1 == k) = true := hall p hp
  simp [hne]

theorem setKey_setKey (r : Record) (k : String) (w v : Value) :
    setKey (setKey r k w) k v = setKey r k v := by
  have h2 : containsKey (setKey r k w) k = true := by
    rw [containsKey_setKey]; simp
  rw [setKey, if_pos h2]
  by_cases h : containsKey r k = true
  · simp only [setKey, h, if_true, List.map_map]
    apply List.map_congr_left
    intro p _
    by_cases hp : p.1 = k
    · simp [hp]
    · simp [hp]
  · have hfalse : containsKey r k = false := by
      cases hc : containsKey r k
      · rfl
      · exact absurd hc h
    have hfind := find?_eq_none_of_not_contains r k h
    have hall := List.find?_eq_none.mp hfind
    rw [setKey, hfalse, if_neg (by simp), setKey, hfalse, if_neg (by simp),
      List.map_append]
    congr 1
    · conv_rhs => rw [← List.map_id r]
      apply List.map_congr_left
      intro p hp
      have hne := hall p hp
      simp [hne]
    · simp

theorem genValue_char {fk : String → Nat → Value} {o : Nat → Nat}
    {tf : String} {s e : Int} {f : FieldDef} {rec : Record} {i : Nat}
    {rec₂ : Record} {i₂ : Nat}
    (h : genValue fk o tf s e f rec i = some (rec₂, i₂)) :
    ∃ v, rec₂ = setKey rec f.name v ∧ i₂ = i + 1 := by
  unfold genValue at h
  split at h
  · cases h; exact ⟨_, rfl, rfl⟩
  · split at h
    · split at h
      · cases h; exact ⟨_, rfl, rfl⟩
      · cases h
      · cases h; exact ⟨_, rfl, rfl⟩
    · cases h; exact ⟨_, rfl, rfl⟩

theorem genOne_char {fk : String → Nat → Value} {o : Nat → Nat}
    {tf : String} {s e : Int} {f : FieldDef} {rec : Record} {i : Nat}
    {rec₂ : Record} {i₂ : Nat}
    (h : genOne fk o tf s e f rec i = some (rec₂, i₂)) :
    ∃ v, rec₂ = setKey rec f.name v ∧ (i₂ = i + 1 ∨ i₂ = i + 2) := by
  unfold genOne at h
  split at h
  · cases h
  · next rec₁ i₁ hv =>
    obtain ⟨v, rfl, rfl⟩ := genValue_char hv
    split at h
    · split at h
      · cases h
        exact ⟨.null, (setKey_setKey rec f.name v .null).symm ▸ rfl, Or.inr rfl⟩
      · cases h; exact ⟨v, rfl, Or.inr rfl⟩
    · cases h; exact ⟨v, rfl, Or.inl rfl⟩

theorem genOne_frame {fk : String → Nat → Value} {o : Nat → Nat}
    {tf : String} {s e : Int} {f : FieldDef} {rec : Record} {i : Nat}
    {rec₂ : Record} {i₂ : Nat}
    (h : genOne fk o tf s e f rec i = some (rec₂, i₂))
    (k : String) (hk : k ≠ f.name) : getKey? rec₂ k = getKey? rec k := by
  obtain ⟨v, rfl, _⟩ := genOne_char h
  exact getKey?_setKey_ne rec f.name k v hk

theorem genOne_containsKey {fk : String → Nat → Value} {o : Nat → Nat}
    {tf : String} {s e : Int} {f : FieldDef} {rec : Record} {i : Nat}
    {rec₂ : Record} {i₂ : Nat}
    (h : genOne fk o tf s e f rec i = some (rec₂, i₂)) (k : String) :
    containsKey rec₂ k = (containsKey rec k || k == f.name) := by
  obtain ⟨v, rfl, _⟩ := genOne_char h
  exact containsKey_setKey rec f.name k v

theorem genValue_total_of_tfNone {fk : String → Nat → Value} {o : Nat → Nat}
    {tf : String} {s e : Int} {f : FieldDef} {rec : Record} {i : Nat}
    (hn : getKey? rec tf = none) :
    ∃ out, genValue fk o tf s e f rec i = some out := by
  unfold genValue
  split
  · exact ⟨_, rfl⟩
  · split
    · rw [hn]
      exact ⟨_, rfl⟩
    · exact ⟨_, rfl⟩

theorem genValue_total_of_time {fk : String → Nat → Value} {o : Nat → Nat}
    {tf : String} {s e : Int} {f : FieldDef} {rec : Record} {i : Nat}
    {t : Int} (ht : getKey? rec tf = some (.time t)) :
    ∃ out, genValue fk o tf s e f rec i = some out := by
  unfold genValue
  split
  · exact ⟨_, rfl⟩
  · split
    · rw [ht]
      exact ⟨_, rfl⟩
    · exact ⟨_, rfl⟩

theorem genOne_total {fk : String → Nat → Value} {o : Nat → Nat}
    {tf : String} {s e : Int} {f : FieldDef} {rec : Record} {i : Nat}
    (h : ∃ out, genValue fk o tf s e f rec i = some out) :
    ∃ rec₂ i₂, genOne fk o tf s e f rec i = some (rec₂, i₂) := by
  obtain ⟨⟨rec₁, i₁⟩, hv⟩ := h
  unfold genOne
  rw [hv]
  split
  · next heq => exact absurd heq (by simp)
  · split
    · split
      · exact ⟨_, _, rfl⟩
      · exact ⟨_, _, rfl⟩
    · exact ⟨_, _, rfl⟩

theorem genOne_timefield {fk : String → Nat → Value} {o : Nat → Nat}
    {tf : String} {s e : Int} {f : FieldDef} {rec : Record} {i : Nat}
    (hname : f.name = tf) (hnul : f.nullable = false) :
    genOne fk o tf s e f rec i
      = some (setKey rec f.name (.time (dateTimeBetween s e (o i))), i + 1) := by
  unfold genOne genValue
  simp [hname, hnul]

theorem genOne_timestamp {fk : String → Nat → Value} {o : Nat → Nat}
    {tf : String} {s e : Int} {f : FieldDef} {rec : Record} {i : Nat}
    {t : Int} (hname : ¬ f.name = tf) (hts : f.sql_type = "TIMESTAMP")
    (hslot : getKey? rec tf = some (.time t)) :
    ∃ rec₂ i₂, genOne fk o tf s e f rec i = some (rec₂, i₂)
      ∧ ∃ v, rec₂ = setKey rec f.name v
        ∧ ((v = .null ∧ f.nullable = true)
            ∨ ∃ d : Nat, d ≤ 30 ∧ v = .time (t + 86400 * (d : Int))) := by
  have hd := (randomInt_le 0 30 (o i) (by omega)).2
  unfold genOne genValue
  rw [hslot]
  simp only [hname, hts, if_false, if_true, beq_iff_eq, if_neg hname, beq_self_eq_true]
  split
  · next hnul =>
    split
    · refine ⟨_, _, rfl, .null, ?_, Or.inl ⟨rfl, hnul⟩⟩
      rw [setKey_setKey]
    · exact ⟨_, _, rfl, _, rfl, Or.inr ⟨randomInt 0 30 (o i), hd, rfl⟩⟩
  · exact ⟨_, _, rfl, _, rfl, Or.inr ⟨randomInt 0 30 (o i), hd, rfl⟩⟩

theorem genFields_nil {fk : String → Nat → Value} {o : Nat → Nat}
    {tf : String} {s e : Int} {rec : Record} {i : Nat} :
    genFields fk o tf s e [] rec i = some (rec, i) := rfl

theorem genFields_cons_skip {fk : String → Nat → Value} {o : Nat → Nat}
    {tf : String} {s e : Int} {f : FieldDef} {fs : List FieldDef}
    {rec : Record} {i : Nat} (hs : isSkippedField f = true) :
    genFields fk o tf s e (f :: fs) rec i = genFields fk o tf s e fs rec i := by
  rw [genFields, if_pos hs]

theorem genFields_cons_step {fk : String → Nat → Value} {o : Nat → Nat}
    {tf : String} {s e : Int} {f : FieldDef} {fs : List FieldDef}
    {rec : Record} {i : Nat} {rec₁ : Record} {i₁ : Nat}
    (hs : isSkippedField f = false)
    (h1 : genOne fk o tf s e f rec i = some (rec₁, i₁)) :
    genFields fk o tf s e (f :: fs) rec i = genFields fk o tf s e fs rec₁ i₁ := by
  rw [genFields, if_neg (by simp [hs]), h1]

theorem genFields_frame {fk : String → Nat → Value} {o : Nat → Nat}
    {tf : String} {s e : Int} (fs : List FieldDef) (k : String)
    (hk : ∀ f ∈ fs, ¬ f.name = k) :
    ∀ rec i rec' i', genFields fk o tf s e fs rec i = some (rec', i') →
      getKey? rec' k = getKey? rec k := by
  induction fs with
  | nil =>
    intro rec i rec' i' h
    rw [genFields_nil] at h
    cases h
    rfl
  | cons f fs ih =>
    intro rec i rec' i' h
    have hk' : ∀ f ∈ fs, ¬ f.name = k := fun g hg => hk g (List.mem_cons_of_mem f hg)
    by_cases hs : isSkippedField f = true
    · rw [genFields_cons_skip hs] at h
      exact ih hk' rec i rec' i' h
    · rw [genFields, if_neg hs] at h
      cases hone : genOne fk o tf s e f rec i with
      | none => rw [hone] at h; cases h
      | some p =>
        obtain ⟨rec₁, i₁⟩ := p
        rw [hone] at h
        rw [ih hk' rec₁ i₁ rec' i' h,
          genOne_frame hone k (fun hkf => hk f (List.mem_cons_self f fs) hkf.symm)]

theorem genFields_total_slotNone {fk : String → Nat → Value} {o : Nat → Nat}
    {tf : String} {s e : Int} (fs : List FieldDef)
    (hname : ∀ f ∈ fs, ¬ f.name = tf) :
    ∀ rec i, getKey? rec tf = none →
      ∃ rec' i', genFields fk o tf s e fs rec i = some (rec', i')
        ∧ getKey? rec' tf = none := by
  induction fs with
  | nil => exact fun rec i h => ⟨rec, i, rfl, h⟩
  | cons f fs ih =>
    intro rec i h
    have hname' : ∀ f ∈ fs, ¬ f.name = tf :=
      fun g hg => hname g (List.mem_cons_of_mem f hg)
    by_cases hs : isSkippedField f = true
    · obtain ⟨rec', i', hg, ht⟩ := ih hname' rec i h
      exact ⟨rec', i', by rw [genFields_cons_skip hs]; exact hg, ht⟩
    · have hs' : isSkippedField f = false := by
        cases hc : isSkippedField f
        · rfl
        · exact absurd hc hs
      obtain ⟨rec₁, i₁, ho⟩ :=
        @genOne_total fk o tf s e f rec i (@genValue_total_of_tfNone fk o tf s e f rec i h)
      have hslot1 : getKey? rec₁ tf = none := by
        rw [genOne_frame ho tf
          (fun hkf => hname f (List.mem_cons_self f fs) hkf.symm)]
        exact h
      obtain ⟨rec', i', hg, ht⟩ := ih hname' rec₁ i₁ hslot1
      exact ⟨rec', i', by rw [genFields_cons_step hs' ho]; exact hg, ht⟩

theorem genFields_suffix {fk : String → Nat → Value} {o : Nat → Nat}
    {tf : String} {s e : Int} (fs : List FieldDef) (t : Int)
    (hname : ∀ f ∈ fs, ¬ f.name = tf)
    (hnd : (fs.map FieldDef.name).Nodup) :
    ∀ rec i, getKey? rec tf = some (.time t) →
      ∃ rec' i', genFields fk o tf s e fs rec i = some (rec', i')
        ∧ getKey? rec' tf = some (.time t)
        ∧ ∀ f ∈ fs, f.sql_type = "TIMESTAMP" →
            ∃ v, getKey? rec' f.name = some v ∧
              ((v = .null ∧ f.nullable = true)
                ∨ ∃ d : Nat, d ≤ 30 ∧ v = .time (t + 86400 * (d : Int))) := by
  induction fs with
  | nil => exact fun rec i h => ⟨rec, i, rfl, h, by simp⟩
  | cons f fs ih =>
    intro rec i h
    have hname' : ∀ f ∈ fs, ¬ f.name = tf :=
      fun g hg => hname g (List.mem_cons_of_mem f hg)
    have hnd' : (fs.map FieldDef.name).Nodup := by
      rw [List.map_cons, List.nodup_cons] at hnd
      exact hnd.2
    have hnotmem : f.name ∉ fs.map FieldDef.name := by
      rw [List.map_cons, List.nodup_cons] at hnd
      exact hnd.1
    by_cases hs : isSkippedField f = true
    · obtain ⟨rec', i', hg, ht, hts⟩ := ih hname' hnd' rec i h
      refine ⟨rec', i', by rw [genFields_cons_skip hs]; exact hg, ht, ?_⟩
      intro g hg' hgts
      rcases List.mem_cons.mp hg' with rfl | hgm
      · exfalso
        unfold isSkippedField at hs
        rw [hgts] at hs
        simp only [Bool.and_eq_true, beq_iff_eq] at hs
        exact absurd hs.2 (by decide)
      · exact hts g hgm hgts
    · have hs' : isSkippedField f = false := by
        cases hc : isSkippedField f
        · rfl
        · exact absurd hc hs
      have hfname : ¬ f.name = tf := hname f (List.mem_cons_self f fs)
      by_cases hts : f.sql_type = "TIMESTAMP"
      · obtain ⟨rec₁, i₁, ho, v, rfl, hv⟩ := genOne_timestamp hfname hts h
        have hslot1 : getKey? (setKey rec f.name v) tf = some (.time t) := by
          rw [getKey?_setKey_ne rec f.name tf v (fun hkf => hfname hkf.symm)]
          exact h
        obtain ⟨rec', i', hg, ht', hts'⟩ := ih hname' hnd' _ i₁ hslot1
        refine ⟨rec', i', by rw [genFields_cons_step hs' ho]; exact hg, ht', ?_⟩
        intro g hg' hgts
        rcases List.mem_cons.mp hg' with rfl | hgm
        · have hpres : getKey? rec' g.name = getKey? (setKey rec g.name v) g.name := by
            apply genFields_frame fs g.name ?_ _ i₁ rec' i' hg
            intro g' hg'm hg'n
            exact hnotmem (hg'n ▸ List.mem_map_of_mem FieldDef.name hg'm)
          rw [hpres, getKey?_setKey_self]
          exact ⟨v, rfl, hv⟩
        · exact hts' g hgm hgts
      · obtain ⟨rec₁, i₁, ho⟩ := @genOne_total fk o tf s e f rec i (by
          unfold genValue
          split
          · exact ⟨_, rfl⟩
          · split
            · rename_i hc1 hc2
              exact absurd (by simpa using hc2) hts
            · exact ⟨_, rfl⟩)
        have hslot1 : getKey? rec₁ tf = some (.time t) := by
          rw [genOne_frame ho tf (fun hkf => hfname hkf.symm)]
          exact h
        obtain ⟨rec', i', hg, ht', hts'⟩ := ih hname' hnd' rec₁ i₁ hslot1
        refine ⟨rec', i', by rw [genFields_cons_step hs' ho]; exact hg, ht', ?_⟩
        intro g hg' hgts
        rcases List.mem_cons.mp hg' with rfl | hgm
        · exact absurd hgts hts
        · exact hts' g hgm hgts

theorem genFields_keys {fk : String → Nat → Value} {o : Nat → Nat}
    {tf : String} {s e : Int} (fs : List FieldDef) :
    ∀ rec i rec' i', genFields fk o tf s e fs rec i = some (rec', i') →
      (∀ k, containsKey rec k = true → containsKey rec' k = true)
      ∧ (∀ f ∈ fs, isSkippedField f = false → containsKey rec' f.name = true) := by
  induction fs with
  | nil =>
    intro rec i rec' i' h
    rw [genFields_nil] at h
    cases h
    exact ⟨fun _ hk => hk, by simp⟩
  | cons f fs ih =>
    intro rec i rec' i' h
    by_cases hs : isSkippedField f = true
    · rw [genFields_cons_skip hs] at h
      obtain ⟨hmono, hall⟩ := ih rec i rec' i' h
      refine ⟨hmono, ?_⟩
      intro g hg hns
      rcases List.mem_cons.mp hg with rfl | hgm
      · exact absurd hs (by rw [hns]; simp)
      · exact hall g hgm hns
    · rw [genFields, if_neg hs] at h
      cases hone : genOne fk o tf s e f rec i with
      | none => rw [hone] at h; cases h
      | some p =>
        obtain ⟨rec₁, i₁⟩ := p
        rw [hone] at h
        obtain ⟨hmono, hall⟩ := ih rec₁ i₁ rec' i' h
        have hstep := genOne_containsKey hone
        refine ⟨fun k hk => hmono k (by rw [hstep k, hk]; simp), ?_⟩
        intro g hg hns
        rcases List.mem_cons.mp hg with rfl | hgm
        · exact hmono g.name (by rw [hstep g.name]; simp)
        · exact hall g hgm hns

theorem genFields_no_id {fk : String → Nat → Value} {o : Nat → Nat}
    {tf : String} {s e : Int} (fs : List FieldDef)
    (hid : ∀ f ∈ fs, f.name = "id" → isSkippedField f = true) :
    ∀ rec i rec' i', genFields fk o tf s e fs rec i = some (rec', i') →
      containsKey rec "id" = false → containsKey rec' "id" = false := by
  induction fs with
  | nil =>
    intro rec i rec' i' h hrec
    rw [genFields_nil] at h
    cases h
    exact hrec
  | cons f fs ih =>
    intro rec i rec' i' h hrec
    have hid' : ∀ f ∈ fs, f.name = "id" → isSkippedField f = true :=
      fun g hg => hid g (List.mem_cons_of_mem f hg)
    by_cases hs : isSkippedField f = true
    · rw [genFields_cons_skip hs] at h
      exact ih hid' rec i rec' i' h hrec
    · rw [genFields, if_neg hs] at h
      cases hone : genOne fk o tf s e f rec i with
      | none => rw [hone] at h; cases h
      | some p =>
        obtain ⟨rec₁, i₁⟩ := p
        rw [hone] at h
        have hfn : ¬ f.name = "id" := fun hfn =>
          hs (hid f (List.mem_cons_self f fs) hfn)
        apply ih hid' rec₁ i₁ rec' i' h
        rw [genOne_containsKey hone "id", hrec]
        simp [Ne.symm hfn]

theorem genFields_append (fk : String → Nat → Value) (o : Nat → Nat)
    (tf : String) (s e : Int) (xs ys : List FieldDef) :
    ∀ rec i, genFields fk o tf s e (xs ++ ys) rec i
      = (genFields fk o tf s e xs rec i).bind
          (fun p => genFields fk o tf s e ys p.1 p.2) := by
  induction xs with
  | nil =>
    intro rec i
    rw [List.nil_append, genFields_nil]
    rfl
  | cons f fs ih =>
    intro rec i
    by_cases hs : isSkippedField f = true
    · rw [List.cons_append, genFields_cons_skip hs, genFields_cons_skip hs, ih]
    · have hs' : isSkippedField f = false := by
        cases hc : isSkippedField f
        · rfl
        · exact absurd hc hs
      cases hone : genOne fk o tf s e f rec i with
      | none =>
        rw [List.cons_append, genFields, if_neg hs, hone,
          genFields, if_neg hs, hone]
        rfl
      | some p =>
        obtain ⟨rec₁, i₁⟩ := p
        rw [List.cons_append, genFields_cons_step hs' hone,
          genFields_cons_step hs' hone, ih]

theorem genOne_nullable_overwrite {fk : String → Nat → Value} {o : Nat → Nat}
    {tf : String} {s e : Int} {f : FieldDef} {rec : Record} {i : Nat}
    {rec₂ : Record} {i₂ : Nat} (hnul : f.nullable = true)
    (h : genOne fk o tf s e f rec i = some (rec₂, i₂))
    (hdraw : randomInt 1 10 (o (i + 1)) ≤ 2) :
    rec₂ = setKey rec f.name .null := by
  unfold genOne at h
  split at h
  · cases h
  · next rec₁ i₁ hv =>
    obtain ⟨v, rfl, rfl⟩ := genValue_char hv
    rw [hnul, if_pos rfl, if_pos hdraw] at h
    cases h
    rw [setKey_setKey]

theorem genFields_nullable_head {fk : String → Nat → Value} {o : Nat → Nat}
    {tf : String} {s e : Int} {f : FieldDef} {fs : List FieldDef}
    {rec : Record} {i : Nat} {rec' : Record} {i' : Nat}
    (hnul : f.nullable = true) (hs : isSkippedField f = false)
    (hnd : ∀ g ∈ fs, ¬ g.name = f.name)
    (h : genFields fk o tf s e (f :: fs) rec i = some (rec', i'))
    (hdraw : randomInt 1 10 (o (i + 1)) ≤ 2) :
    getKey? rec' f.name = some .null := by
  rw [genFields, if_neg (by simp [hs])] at h
  cases hone : genOne fk o tf s e f rec i with
  | none => rw [hone] at h; cases h
  | some p =>
    obtain ⟨rec₁, i₁⟩ := p
    rw [hone] at h
    have hover := genOne_nullable_overwrite hnul hone hdraw
    rw [genFields_frame fs f.name hnd rec₁ i₁ rec' i' h, hover,
      getKey?_setKey_self]

/-- Master lemma for `generate_record` on a schema whose field list splits
as `P ++ FT :: S` where the time field `FT` comes after the
timestamp-free prefix `P` (the shape of every registered schema):
generation succeeds, the time field is a datetime inside the window, every
other `TIMESTAMP` field is `None` or the time value plus 0–30 days, every
non-skipped field is present, and `id` is absent when every field named
`id` is an auto-increment field. -/
theorem generate_record_master (fk : String → Nat → Value) (o : Nat → Nat)
    (s e : Int) (sc : Schema) (P S : List FieldDef) (FT : FieldDef)
    (hdecomp : sc.fields = P ++ FT :: S)
    (hPname : ∀ f ∈ P, ¬ f.name = sc.time_field)
    (hPts : ∀ f ∈ P, ¬ f.sql_type = "TIMESTAMP")
    (hFTname : FT.name = sc.time_field) (hFTnul : FT.nullable = false)
    (hFTskip : isSkippedField FT = false)
    (hSname : ∀ f ∈ S, ¬ f.name = sc.time_field)
    (hSnd : (S.map FieldDef.name).Nodup)
    (hse : s ≤ e) (i : Nat) :
    ∃ rec i', generate_record fk sc s e o i = some (rec, i')
      ∧ (∃ t, getKey? rec sc.time_field = some (.time t) ∧ s ≤ t ∧ t ≤ e)
      ∧ (∀ t, getKey? rec sc.time_field = some (.time t) →
          ∀ f ∈ sc.fields, ¬ f.name = sc.time_field → f.sql_type = "TIMESTAMP" →
            ∃ v, getKey? rec f.name = some v ∧
              ((v = .null ∧ f.nullable = true)
                ∨ ∃ d : Nat, d ≤ 30 ∧ v = .time (t + 86400 * (d : Int))))
      ∧ (∀ f ∈ sc.fields, isSkippedField f = false → containsKey rec f.name = true)
      ∧ ((∀ f ∈ sc.fields, f.name = "id" → isSkippedField f = true) →
          containsKey rec "id" = false) := by
  obtain ⟨recP, iP, hgP, hslotP⟩ :=
    genFields_total_slotNone P hPname ([] : Record) i rfl
  have hFT1 := @genOne_timefield fk o sc.time_field s e FT recP iP hFTname hFTnul
  have hslotFT : getKey? (setKey recP FT.name
      (.time (dateTimeBetween s e (o iP)))) sc.time_field
      = some (.time (dateTimeBetween s e (o iP))) := by
    rw [← hFTname]
    exact getKey?_setKey_self recP FT.name _
  obtain ⟨rec, i', hgS, hslotS, htsS⟩ :=
    genFields_suffix S (dateTimeBetween s e (o iP)) hSname hSnd _ (iP + 1) hslotFT
  have hgen' : genFields fk o sc.time_field s e sc.fields [] i = some (rec, i') := by
    rw [hdecomp, genFields_append, hgP, Option.some_bind, genFields_cons_step hFTskip hFT1]
    exact hgS
  have hbounds := dateTimeBetween_bounds s e (o iP) hse
  refine ⟨rec, i', hgen', ⟨_, hslotS, hbounds.1, hbounds.2⟩, ?_, ?_, ?_⟩
  · intro t ht f hf hfname hfts
    rw [hslotS] at ht
    have htt : t = dateTimeBetween s e (o iP) := by
      injection ht with h1
      injection h1 with h2
      exact h2.symm
    subst htt
    rw [hdecomp] at hf
    rcases List.mem_append.mp hf with hfP | hfFTS
    · exact absurd hfts (hPts f hfP)
    · rcases List.mem_cons.mp hfFTS with rfl | hfS
      · exact absurd hFTname hfname
      · exact htsS f hfS hfts
  · exact (genFields_keys sc.fields [] i rec i' hgen').2
  · intro hid
    exact genFields_no_id sc.fields hid [] i rec i' hgen' rfl

/-- The master facts hold for every schema in the registry: each one's
field list is a timestamp-free prefix, then the (non-nullable, non-id)
time field, then a duplicate-free suffix. -/
theorem registry_master (sc : Schema) (hsc : sc ∈ registrySchemas)
    (fk : String → Nat → Value) (o : Nat → Nat) (s e : Int) (hse : s ≤ e)
    (i : Nat) :
    ∃ rec i', generate_record fk sc s e o i = some (rec, i')
      ∧ (∃ t, getKey? rec sc.time_field = some (.time t) ∧ s ≤ t ∧ t ≤ e)
      ∧ (∀ t, getKey? rec sc.time_field = some (.time t) →
          ∀ f ∈ sc.fields, ¬ f.name = sc.time_field → f.sql_type = "TIMESTAMP" →
            ∃ v, getKey? rec f.name = some v ∧
              ((v = .null ∧ f.nullable = true)
                ∨ ∃ d : Nat, d ≤ 30 ∧ v = .time (t + 86400 * (d : Int))))
      ∧ (∀ f ∈ sc.fields, isSkippedField f = false → containsKey rec f.name = true)
      ∧ ((∀ f ∈ sc.fields, f.name = "id" → isSkippedField f = true) →
          containsKey rec "id" = false) := by
  have hsc' : sc = CONTACTS ∨ sc = SALES_ORDERS ∨ sc = MANUFACTURING_ORDERS
      ∨ sc = PRODUCTS ∨ sc = INVOICES := by
    simpa [registrySchemas, SCHEMAS] using hsc
  rcases hsc' with rfl | rfl | rfl | rfl | rfl
  · exact generate_record_master fk o s e CONTACTS
      (CONTACTS.fields.take 12) (CONTACTS.fields.drop 13)
      ⟨"created_at", "TIMESTAMP", false⟩
      (by decide) (by decide) (by decide) (by decide) (by decide) (by decide)
      (by decide) (by decide) hse i
  · exact generate_record_master fk o s e SALES_ORDERS
      (SALES_ORDERS.fields.take 5) (SALES_ORDERS.fields.drop 6)
      ⟨"order_date", "TIMESTAMP", false⟩
      (by decide) (by decide) (by decide) (by decide) (by decide) (by decide)
      (by decide) (by decide) hse i
  · exact generate_record_master fk o s e MANUFACTURING_ORDERS
      (MANUFACTURING_ORDERS.fields.take 6) (MANUFACTURING_ORDERS.fields.drop 7)
      ⟨"scheduled_start", "TIMESTAMP", false⟩
      (by decide) (by decide) (by decide) (by decide) (by decide) (by decide)
      (by decide) (by decide) hse i
  · exact generate_record_master fk o s e PRODUCTS
      (PRODUCTS.fields.take 12) (PRODUCTS.fields.drop 13)
      ⟨"created_at", "TIMESTAMP", false⟩
      (by decide) (by decide) (by decide) (by decide) (by decide) (by decide)
      (by decide) (by decide) hse i
  · exact generate_record_master fk o s e INVOICES
      (INVOICES.fields.take 4) (INVOICES.fields.drop 5)
      ⟨"invoice_date", "TIMESTAMP", false⟩
      (by decide) (by decide) (by decide) (by decide) (by decide) (by decide)
      (by decide) (by decide) hse i

/-! ## Lemmas about the normalizer -/

theorem getKey?_popKey_self (r : Record) (k : String) :
    getKey? (popKey r k) k = none := by
  unfold popKey getKey?
  have : List.find? (fun p => p.1 == k) (r.filter (fun p => p.1 ≠ k)) = none := by
    rw [List.find?_eq_none]
    intro x hx
    have := List.of_mem_filter hx
    simp only [decide_not, Bool.not_eq_true', decide_eq_false_iff_not] at this
    simp [this]
  rw [this]
  rfl

theorem getKey?_popKey_ne (r : Record) (k k' : String) (h : k' ≠ k) :
    getKey? (popKey r k) k' = getKey? r k' := by
  unfold popKey getKey?
  induction r with
  | nil => rfl
  | cons p r ih =>
    by_cases hp : p.1 = k
    · have hp' : ¬ (p.1 == k') = true := by simp [hp, Ne.symm h]
      rw [List.filter_cons_of_neg (by simp [hp]), ih,
        @List.find?_cons_of_neg (String × Value) (fun q => q.1 == k') p r hp']
    · by_cases hp' : p.1 = k'
      · rw [List.filter_cons_of_pos (by simp [hp]),
          @List.find?_cons_of_pos (String × Value) (fun q => q.1 == k') p
            (r.filter (fun q => decide (q.1 ≠ k))) (by simp [hp']),
          @List.find?_cons_of_pos (String × Value) (fun q => q.1 == k') p r (by simp [hp'])]
      · rw [List.filter_cons_of_pos (by simp [hp]),
          @List.find?_cons_of_neg (String × Value) (fun q => q.1 == k') p
            (r.filter (fun q => decide (q.1 ≠ k))) (by simp [hp']),
          @List.find?_cons_of_neg (String × Value) (fun q => q.1 == k') p r (by simp [hp']), ih]

theorem lookupEntry_append {α : Type} (l l' : List (Value × α)) (k : Value) :
    lookupEntry (l ++ l') k = (lookupEntry l k).or (lookupEntry l' k) := by
  unfold lookupEntry
  rw [List.find?_append]
  cases l.find? (fun p => p.1 == k) <;> simp

theorem lookupEntry_singleton_self {α : Type} (k : Value) (c : α) :
    lookupEntry [(k, c)] k = some c := by
  unfold lookupEntry
  rw [List.find?_cons_of_pos _ (by simp)]
  rfl

theorem lookupEntry_isSome_iff {α : Type} (l : List (Value × α)) (k : Value) :
    (lookupEntry l k).isSome = true ↔ k ∈ l.map (·.1) := by
  unfold lookupEntry
  have hiso : (Option.map (fun x : Value × α => x.2)
        (l.find? (fun p => p.1 == k))).isSome
      = (l.find? (fun p => p.1 == k)).isSome := by
    cases l.find? (fun p => p.1 == k) <;> rfl
  rw [hiso, List.find?_isSome]
  constructor
  · rintro ⟨x, hx, hxk⟩
    simp only [beq_iff_eq] at hxk
    exact hxk ▸ List.mem_map_of_mem _ hx
  · intro hk
    obtain ⟨x, hx, hxk⟩ := List.mem_map.mp hk
    exact ⟨x, hx, by simp [hxk]⟩

theorem extract_customer_hit (st : NormState) (record : Record)
    (c : CustomerRec) (hf : isFalsy (emailOf record) = false)
    (h : lookupEntry st.customers (emailOf record) = some c) :
    _extract_customer st record = (st, some c.cid) := by
  simp only [_extract_customer]
  rw [show (getKey? record "customer_email").getD Value.null = emailOf record from rfl,
    hf]
  rw [if_neg (by simp), h]

theorem extract_customer_miss (st : NormState) (record : Record)
    (hf : isFalsy (emailOf record) = false)
    (h : lookupEntry st.customers (emailOf record) = none) :
    _extract_customer st record
      = ({ st with
            customers := st.customers ++
              [(emailOf record,
                ⟨st.customer_id_counter,
                 getDefault record "customer_name" (.str ""),
                 emailOf record,
                 getDefault record "customer_phone" (.str "")⟩)],
            customer_id_counter := st.customer_id_counter + 1 },
         some st.customer_id_counter) := by
  simp only [_extract_customer]
  rw [show (getKey? record "customer_email").getD Value.null = emailOf record from rfl,
    hf]
  rw [if_neg (by simp), h]

theorem extract_customer_falsy (st : NormState) (record : Record)
    (hf : isFalsy (emailOf record) = true) :
    _extract_customer st record = (st, none) := by
  simp only [_extract_customer]
  rw [show (getKey? record "customer_email").getD Value.null = emailOf record from rfl,
    hf]
  rw [if_pos rfl]

theorem extract_product_falsy (st : NormState) (record : Record)
    (hf : isFalsy (skuOf record) = true) :
    _extract_product st record = (st, none) := by
  simp only [_extract_product]
  rw [hf]
  rw [if_pos rfl]

theorem extract_product_hit (st : NormState) (record : Record)
    (c : ProductRec) (hf : isFalsy (skuOf record) = false)
    (h : lookupEntry st.products (skuOf record) = some c) :
    _extract_product st record = (st, some c.pid) := by
  simp only [_extract_product]
  rw [hf]
  rw [if_neg (by simp), h]

theorem extract_product_miss (st : NormState) (record : Record)
    (hf : isFalsy (skuOf record) = false)
    (h : lookupEntry st.products (skuOf record) = none) :
    _extract_product st record
      = ({ st with
            products := st.products ++
              [(skuOf record,
                ⟨st.product_id_counter, skuOf record, pnameOf record⟩)],
            product_id_counter := st.product_id_counter + 1 },
         some st.product_id_counter) := by
  simp only [_extract_product]
  rw [hf]
  rw [if_neg (by simp), h]

theorem extract_customer_prod_frame (st : NormState) (record : Record) :
    (_extract_customer st record).1.products = st.products
    ∧ (_extract_customer st record).1.product_id_counter
        = st.product_id_counter := by
  simp only [_extract_customer]
  split
  · exact ⟨rfl, rfl⟩
  · split
    · exact ⟨rfl, rfl⟩
    · exact ⟨rfl, rfl⟩

theorem extract_product_cust_frame (st : NormState) (record : Record) :
    (_extract_product st record).1.customers = st.customers
    ∧ (_extract_product st record).1.customer_id_counter
        = st.customer_id_counter := by
  simp only [_extract_product]
  split
  · exact ⟨rfl, rfl⟩
  · split
    · exact ⟨rfl, rfl⟩
    · exact ⟨rfl, rfl⟩

theorem normalize_record_sales (st : NormState) (record : Record) :
    normalize_record st record "sales_orders"
      = (match _extract_customer st record with
         | (st', some cid) =>
           if cid ≠ 0 then
             (st', popKey (popKey (popKey
               (setKey record "customer_id" (.int cid)) "customer_name")
               "customer_email") "customer_phone")
           else (st', record)
         | (st', none) => (st', record)) := by
  rfl

theorem normalize_record_manu (st : NormState) (record : Record) :
    normalize_record st record "manufacturing_orders"
      = (match _extract_product st record with
         | (st', some pid) =>
           if pid ≠ 0 then
             (st', popKey (popKey
               (setKey record "product_id" (.int pid)) "product_name")
               "product_sku")
           else (st', record)
         | (st', none) => (st', record)) := by
  rfl

theorem normalizeAll_nil (st : NormState) (sn : String) :
    normalizeAll st sn [] = (st, []) := rfl

theorem normalizeAll_cons (st : NormState) (sn : String) (r : Record)
    (rs : List Record) :
    normalizeAll st sn (r :: rs)
      = ((normalizeAll (normalize_record st r sn).1 sn rs).1,
         (normalize_record st r sn).2
           :: (normalizeAll (normalize_record st r sn).1 sn rs).2) := rfl

theorem truthyKeys_cons_falsy {a : Value} {l : List Value}
    (h : isFalsy a = true) : truthyKeys (a :: l) = truthyKeys l := by
  simp [truthyKeys, List.filter_cons, h]

theorem truthyKeys_cons_truthy {a : Value} {l : List Value}
    (h : isFalsy a = false) : truthyKeys (a :: l) = a :: truthyKeys l := by
  simp [truthyKeys, List.filter_cons, h]

theorem extractAllC_cons_falsy {known : List Value} {n : Nat} {r : Record}
    {rs : List Record} (h : isFalsy (emailOf r) = true) :
    extractAllC known n (r :: rs) = extractAllC known n rs := by
  simp only [extractAllC]
  rw [h, if_pos rfl]

theorem extractAllC_cons_mem {known : List Value} {n : Nat} {r : Record}
    {rs : List Record} (hf : isFalsy (emailOf r) = false)
    (h : emailOf r ∈ known) :
    extractAllC known n (r :: rs) = extractAllC known n rs := by
  simp only [extractAllC]
  rw [hf, if_neg (by decide), if_pos h]

theorem extractAllC_cons_new {known : List Value} {n : Nat} {r : Record}
    {rs : List Record} (hf : isFalsy (emailOf r) = false)
    (h : emailOf r ∉ known) :
    extractAllC known n (r :: rs)
      = (emailOf r,
          ⟨n, getDefault r "customer_name" (.str ""), emailOf r,
           getDefault r "customer_phone" (.str "")⟩)
        :: extractAllC (known ++ [emailOf r]) (n + 1) rs := by
  simp only [extractAllC]
  rw [hf, if_neg (by decide), if_neg h]

theorem extractAllP_cons_falsy {known : List Value} {n : Nat} {r : Record}
    {rs : List Record} (h : isFalsy (skuOf r) = true) :
    extractAllP known n (r :: rs) = extractAllP known n rs := by
  simp only [extractAllP]
  rw [h, if_pos rfl]

theorem extractAllP_cons_mem {known : List Value} {n : Nat} {r : Record}
    {rs : List Record} (hf : isFalsy (skuOf r) = false)
    (h : skuOf r ∈ known) :
    extractAllP known n (r :: rs) = extractAllP known n rs := by
  simp only [extractAllP]
  rw [hf, if_neg (by decide), if_pos h]

theorem extractAllP_cons_new {known : List Value} {n : Nat} {r : Record}
    {rs : List Record} (hf : isFalsy (skuOf r) = false)
    (h : skuOf r ∉ known) :
    extractAllP known n (r :: rs)
      = (skuOf r, ⟨n, skuOf r, pnameOf r⟩)
        :: extractAllP (known ++ [skuOf r]) (n + 1) rs := by
  simp only [extractAllP]
  rw [hf, if_neg (by decide), if_neg h]

theorem dedupFirst_cons_mem {seen : List Value} {a : Value} {l : List Value}
    (h : a ∈ seen) : dedupFirst seen (a :: l) = dedupFirst seen l := by
  simp only [dedupFirst, if_pos h]

theorem dedupFirst_cons_new {seen : List Value} {a : Value} {l : List Value}
    (h : a ∉ seen) :
    dedupFirst seen (a :: l) = a :: dedupFirst (seen ++ [a]) l := by
  simp only [dedupFirst, if_neg h]

theorem dedupFirst_not_mem_seen (l : List Value) :
    ∀ seen x, x ∈ dedupFirst seen l → x ∉ seen := by
  induction l with
  | nil => intro seen x hx; cases hx
  | cons a l ih =>
    intro seen x hx
    by_cases ha : a ∈ seen
    · rw [dedupFirst_cons_mem ha] at hx
      exact ih seen x hx
    · rw [dedupFirst_cons_new ha] at hx
      rcases List.mem_cons.mp hx with rfl | hx'
      · exact ha
      · intro hxs
        exact ih (seen ++ [a]) x hx' (List.mem_append_left [a] hxs)

theorem extractAllC_keys (recs : List Record) :
    ∀ known n, (extractAllC known n recs).map (·.1)
      = dedupFirst known (truthyKeys (recs.map emailOf)) := by
  induction recs with
  | nil => intro known n; rfl
  | cons r rs ih =>
    intro known n
    cases hfa : isFalsy (emailOf r) with
    | true =>
      rw [extractAllC_cons_falsy hfa, List.map_cons,
        truthyKeys_cons_falsy hfa, ih]
    | false =>
      rw [List.map_cons, truthyKeys_cons_truthy hfa]
      by_cases h : emailOf r ∈ known
      · rw [extractAllC_cons_mem hfa h, dedupFirst_cons_mem h, ih]
      · rw [extractAllC_cons_new hfa h, dedupFirst_cons_new h, List.map_cons, ih]

theorem extractAllC_emails (recs : List Record) :
    ∀ known n, (extractAllC known n recs).map (·.2.cemail)
      = dedupFirst known (truthyKeys (recs.map emailOf)) := by
  induction recs with
  | nil => intro known n; rfl
  | cons r rs ih =>
    intro known n
    cases hfa : isFalsy (emailOf r) with
    | true =>
      rw [extractAllC_cons_falsy hfa, List.map_cons,
        truthyKeys_cons_falsy hfa, ih]
    | false =>
      rw [List.map_cons, truthyKeys_cons_truthy hfa]
      by_cases h : emailOf r ∈ known
      · rw [extractAllC_cons_mem hfa h, dedupFirst_cons_mem h, ih]
      · rw [extractAllC_cons_new hfa h, dedupFirst_cons_new h, List.map_cons, ih]

theorem extractAllC_ids (recs : List Record) :
    ∀ known n, (extractAllC known n recs).map (·.2.cid)
      = List.range' n (dedupFirst known (truthyKeys (recs.map emailOf))).length := by
  induction recs with
  | nil => intro known n; rfl
  | cons r rs ih =>
    intro known n
    cases hfa : isFalsy (emailOf r) with
    | true =>
      rw [extractAllC_cons_falsy hfa, List.map_cons,
        truthyKeys_cons_falsy hfa, ih]
    | false =>
      rw [List.map_cons, truthyKeys_cons_truthy hfa]
      by_cases h : emailOf r ∈ known
      · rw [extractAllC_cons_mem hfa h, dedupFirst_cons_mem h, ih]
      · rw [extractAllC_cons_new hfa h, dedupFirst_cons_new h,
          List.map_cons, List.length_cons, List.range'_succ, ih]

theorem extractAllC_keys_truthy (recs : List Record) :
    ∀ known n p, p ∈ extractAllC known n recs → isFalsy p.1 = false := by
  induction recs with
  | nil => intro known n p hp; cases hp
  | cons r rs ih =>
    intro known n p hp
    cases hfa : isFalsy (emailOf r) with
    | true =>
      rw [extractAllC_cons_falsy hfa] at hp
      exact ih known n p hp
    | false =>
      by_cases h : emailOf r ∈ known
      · rw [extractAllC_cons_mem hfa h] at hp
        exact ih known n p hp
      · rw [extractAllC_cons_new hfa h] at hp
        rcases List.mem_cons.mp hp with rfl | hp'
        · exact hfa
        · exact ih _ _ p hp'

theorem extractAllP_keys (prods : List Record) :
    ∀ known n, (extractAllP known n prods).map (·.1)
      = dedupFirst known (truthyKeys (prods.map skuOf)) := by
  induction prods with
  | nil => intro known n; rfl
  | cons r rs ih =>
    intro known n
    cases hfa : isFalsy (skuOf r) with
    | true =>
      rw [extractAllP_cons_falsy hfa, List.map_cons,
        truthyKeys_cons_falsy hfa, ih]
    | false =>
      rw [List.map_cons, truthyKeys_cons_truthy hfa]
      by_cases h : skuOf r ∈ known
      · rw [extractAllP_cons_mem hfa h, dedupFirst_cons_mem h, ih]
      · rw [extractAllP_cons_new hfa h, dedupFirst_cons_new h, List.map_cons, ih]

theorem extractAllP_skus (prods : List Record) :
    ∀ known n, (extractAllP known n prods).map (·.2.psku)
      = dedupFirst known (truthyKeys (prods.map skuOf)) := by
  induction prods with
  | nil => intro known n; rfl
  | cons r rs ih =>
    intro known n
    cases hfa : isFalsy (skuOf r) with
    | true =>
      rw [extractAllP_cons_falsy hfa, List.map_cons,
        truthyKeys_cons_falsy hfa, ih]
    | false =>
      rw [List.map_cons, truthyKeys_cons_truthy hfa]
      by_cases h : skuOf r ∈ known
      · rw [extractAllP_cons_mem hfa h, dedupFirst_cons_mem h, ih]
      · rw [extractAllP_cons_new hfa h, dedupFirst_cons_new h, List.map_cons, ih]

theorem extractAllP_ids (prods : List Record) :
    ∀ known n, (extractAllP known n prods).map (·.2.pid)
      = List.range' n (dedupFirst known (truthyKeys (prods.map skuOf))).length := by
  induction prods with
  | nil => intro known n; rfl
  | cons r rs ih =>
    intro known n
    cases hfa : isFalsy (skuOf r) with
    | true =>
      rw [extractAllP_cons_falsy hfa, List.map_cons,
        truthyKeys_cons_falsy hfa, ih]
    | false =>
      rw [List.map_cons, truthyKeys_cons_truthy hfa]
      by_cases h : skuOf r ∈ known
      · rw [extractAllP_cons_mem hfa h, dedupFirst_cons_mem h, ih]
      · rw [extractAllP_cons_new hfa h, dedupFirst_cons_new h,
          List.map_cons, List.length_cons, List.range'_succ, ih]

theorem extractAllP_keys_truthy (prods : List Record) :
    ∀ known n p, p ∈ extractAllP known n prods → isFalsy p.1 = false := by
  induction prods with
  | nil => intro known n p hp; cases hp
  | cons r rs ih =>
    intro known n p hp
    cases hfa : isFalsy (skuOf r) with
    | true =>
      rw [extractAllP_cons_falsy hfa] at hp
      exact ih known n p hp
    | false =>
      by_cases h : skuOf r ∈ known
      · rw [extractAllP_cons_mem hfa h] at hp
        exact ih known n p hp
      · rw [extractAllP_cons_new hfa h] at hp
        rcases List.mem_cons.mp hp with rfl | hp'
        · exact hfa
        · exact ih _ _ p hp'

theorem extractAllC_attrs (recs : List Record) :
    ∀ known n p, p ∈ extractAllC known n recs →
      ∃ r, recs.find? (fun r' => emailOf r' == p.1) = some r
        ∧ p.2.cname = getDefault r "customer_name" (.str "")
        ∧ p.2.cphone = getDefault r "customer_phone" (.str "")
        ∧ p.2.cemail = p.1 := by
  induction recs with
  | nil => intro known n p hp; cases hp
  | cons r rs ih =>
    intro known n p hp
    cases hfa : isFalsy (emailOf r) with
    | true =>
      rw [extractAllC_cons_falsy hfa] at hp
      obtain ⟨r', hfind, hn, hph, he⟩ := ih known n p hp
      have hpt : isFalsy p.1 = false := extractAllC_keys_truthy rs known n p hp
      have hne : ¬ (emailOf r == p.1) = true := by
        simp only [beq_iff_eq]
        intro hEq
        rw [hEq] at hfa
        rw [hfa] at hpt
        cases hpt
      exact ⟨r', by
        rw [@List.find?_cons_of_neg Record (fun r' => emailOf r' == p.1) r rs hne]
        exact hfind, hn, hph, he⟩
    | false =>
      by_cases h : emailOf r ∈ known
      · rw [extractAllC_cons_mem hfa h] at hp
        obtain ⟨r', hfind, hn, hph, he⟩ := ih known n p hp
        have hne : ¬ (emailOf r == p.1) = true := by
          have hp1 : p.1 ∉ known := by
            have : p.1 ∈ (extractAllC known n rs).map (·.1) :=
              List.mem_map_of_mem _ hp
            rw [extractAllC_keys] at this
            exact dedupFirst_not_mem_seen _ known p.1 this
          simp only [beq_iff_eq]
          intro hEq
          exact hp1 (hEq ▸ h)
        exact ⟨r', by
          rw [@List.find?_cons_of_neg Record (fun r' => emailOf r' == p.1) r rs hne]
          exact hfind, hn, hph, he⟩
      · rw [extractAllC_cons_new hfa h] at hp
        rcases List.mem_cons.mp hp with heq | hp'
        · refine ⟨r, ?_, by rw [heq], by rw [heq], by rw [heq]⟩
          rw [heq]
          exact @List.find?_cons_of_pos Record
            (fun r' => emailOf r' == (emailOf r,
              (⟨n, getDefault r "customer_name" (Value.str ""), emailOf r,
                getDefault r "customer_phone" (Value.str "")⟩ : CustomerRec)).1)
            r rs (by simp)
        · obtain ⟨r', hfind, hn, hph, he⟩ := ih (known ++ [emailOf r]) (n + 1) p hp'
          have hp1 : p.1 ∉ known ++ [emailOf r] := by
            have : p.1 ∈ (extractAllC (known ++ [emailOf r]) (n + 1) rs).map (·.1) :=
              List.mem_map_of_mem _ hp'
            rw [extractAllC_keys] at this
            exact dedupFirst_not_mem_seen _ _ p.1 this
          have hne : ¬ (emailOf r == p.1) = true := by
            simp only [beq_iff_eq]
            intro hEq
            exact hp1 (List.mem_append_right known (by rw [hEq]; exact List.mem_singleton.mpr rfl))
          exact ⟨r', by
            rw [@List.find?_cons_of_neg Record (fun r' => emailOf r' == p.1) r rs hne]
            exact hfind, hn, hph, he⟩

theorem extractAllP_attrs (prods : List Record) :
    ∀ known n p, p ∈ extractAllP known n prods →
      ∃ r, prods.find? (fun r' => skuOf r' == p.1) = some r
        ∧ p.2.pname = pnameOf r
        ∧ p.2.psku = p.1 := by
  induction prods with
  | nil => intro known n p hp; cases hp
  | cons r rs ih =>
    intro known n p hp
    cases hfa : isFalsy (skuOf r) with
    | true =>
      rw [extractAllP_cons_falsy hfa] at hp
      obtain ⟨r', hfind, hn, he⟩ := ih known n p hp
      have hpt : isFalsy p.1 = false := extractAllP_keys_truthy rs known n p hp
      have hne : ¬ (skuOf r == p.1) = true := by
        simp only [beq_iff_eq]
        intro hEq
        rw [hEq] at hfa
        rw [hfa] at hpt
        cases hpt
      exact ⟨r', by
        rw [@List.find?_cons_of_neg Record (fun r' => skuOf r' == p.1) r rs hne]
        exact hfind, hn, he⟩
    | false =>
      by_cases h : skuOf r ∈ known
      · rw [extractAllP_cons_mem hfa h] at hp
        obtain ⟨r', hfind, hn, he⟩ := ih known n p hp
        have hne : ¬ (skuOf r == p.1) = true := by
          have hp1 : p.1 ∉ known := by
            have : p.1 ∈ (extractAllP known n rs).map (·.1) :=
              List.mem_map_of_mem _ hp
            rw [extractAllP_keys] at this
            exact dedupFirst_not_mem_seen _ known p.1 this
          simp only [beq_iff_eq]
          intro hEq
          exact hp1 (hEq ▸ h)
        exact ⟨r', by
          rw [@List.find?_cons_of_neg Record (fun r' => skuOf r' == p.1) r rs hne]
          exact hfind, hn, he⟩
      · rw [extractAllP_cons_new hfa h] at hp
        rcases List.mem_cons.mp hp with heq | hp'
        · refine ⟨r, ?_, by rw [heq], by rw [heq]⟩
          rw [heq]
          exact @List.find?_cons_of_pos Record
            (fun r' => skuOf r' == (skuOf r,
              (⟨n, skuOf r, pnameOf r⟩ : ProductRec)).1)
            r rs (by simp)
        · obtain ⟨r', hfind, hn, he⟩ := ih (known ++ [skuOf r]) (n + 1) p hp'
          have hp1 : p.1 ∉ known ++ [skuOf r] := by
            have : p.1 ∈ (extractAllP (known ++ [skuOf r]) (n + 1) rs).map (·.1) :=
              List.mem_map_of_mem _ hp'
            rw [extractAllP_keys] at this
            exact dedupFirst_not_mem_seen _ _ p.1 this
          have hne : ¬ (skuOf r == p.1) = true := by
            simp only [beq_iff_eq]
            intro hEq
            exact hp1 (List.mem_append_right known (by rw [hEq]; exact List.mem_singleton.mpr rfl))
          exact ⟨r', by
            rw [@List.find?_cons_of_neg Record (fun r' => skuOf r' == p.1) r rs hne]
            exact hfind, hn, he⟩

theorem normalize_record_sales_state (st : NormState) (record : Record) :
    (normalize_record st record "sales_orders").1
      = (_extract_customer st record).1 := by
  rw [normalize_record_sales]
  rcases _extract_customer st record with ⟨st', cid?⟩
  rcases cid? with _ | cid
  · rfl
  · dsimp only
    split <;> rfl

theorem normalize_record_manu_state (st : NormState) (record : Record) :
    (normalize_record st record "manufacturing_orders").1
      = (_extract_product st record).1 := by
  rw [normalize_record_manu]
  rcases _extract_product st record with ⟨st', pid?⟩
  rcases pid? with _ | pid
  · rfl
  · dsimp only
    split <;> rfl

theorem normalizeAll_sales_prod_frame (recs : List Record) :
    ∀ st, (normalizeAll st "sales_orders" recs).1.products = st.products
      ∧ (normalizeAll st "sales_orders" recs).1.product_id_counter
          = st.product_id_counter := by
  induction recs with
  | nil => intro st; exact ⟨rfl, rfl⟩
  | cons r rs ih =>
    intro st
    rw [normalizeAll_cons]
    dsimp only
    obtain ⟨ih1, ih2⟩ := ih (normalize_record st r "sales_orders").1
    constructor
    · rw [ih1, normalize_record_sales_state]
      exact (extract_customer_prod_frame st r).1
    · rw [ih2, normalize_record_sales_state]
      exact (extract_customer_prod_frame st r).2

theorem normalizeAll_manu_cust_frame (prods : List Record) :
    ∀ st, (normalizeAll st "manufacturing_orders" prods).1.customers
        = st.customers
      ∧ (normalizeAll st "manufacturing_orders" prods).1.customer_id_counter
          = st.customer_id_counter := by
  induction prods with
  | nil => intro st; exact ⟨rfl, rfl⟩
  | cons r rs ih =>
    intro st
    rw [normalizeAll_cons]
    dsimp only
    obtain ⟨ih1, ih2⟩ := ih (normalize_record st r "manufacturing_orders").1
    constructor
    · rw [ih1, normalize_record_manu_state]
      exact (extract_product_cust_frame st r).1
    · rw [ih2, normalize_record_manu_state]
      exact (extract_product_cust_frame st r).2

theorem normalizeAll_customers (recs : List Record) :
    ∀ st,
      (normalizeAll st "sales_orders" recs).1.customers
        = st.customers
            ++ extractAllC (st.customers.map (·.1)) st.customer_id_counter recs
      ∧ (normalizeAll st "sales_orders" recs).1.customer_id_counter
        = st.customer_id_counter
            + (extractAllC (st.customers.map (·.1)) st.customer_id_counter recs).length := by
  induction recs with
  | nil => intro st; exact ⟨by simp [normalizeAll, extractAllC], by simp [normalizeAll, extractAllC]⟩
  | cons r rs ih =>
    intro st
    rw [normalizeAll_cons]
    cases hfr : isFalsy (emailOf r) with
    | true =>
      have hstate : (normalize_record st r "sales_orders").1 = st := by
        rw [normalize_record_sales_state, extract_customer_falsy st r hfr]
      rw [hstate, extractAllC_cons_falsy hfr]
      exact ih st
    | false =>
    by_cases hmem : emailOf r ∈ st.customers.map (·.1)
    · obtain ⟨c, hc⟩ := Option.isSome_iff_exists.mp
        ((lookupEntry_isSome_iff _ _).mpr hmem)
      have hstate : (normalize_record st r "sales_orders").1 = st := by
        rw [normalize_record_sales_state, extract_customer_hit st r c hfr hc]
      rw [hstate, extractAllC_cons_mem hfr hmem]
      exact ih st
    · have hnone : lookupEntry st.customers (emailOf r) = none := by
        cases hl : lookupEntry st.customers (emailOf r) with
        | none => rfl
        | some c =>
          exact absurd ((lookupEntry_isSome_iff _ _).mp (by rw [hl]; rfl)) hmem
      have hstate : (normalize_record st r "sales_orders").1
          = { st with
                customers := st.customers ++
                  [(emailOf r,
                    ⟨st.customer_id_counter,
                     getDefault r "customer_name" (.str ""),
                     emailOf r,
                     getDefault r "customer_phone" (.str "")⟩)],
                customer_id_counter := st.customer_id_counter + 1 } := by
        rw [normalize_record_sales_state, extract_customer_miss st r hfr hnone]
      rw [hstate]
      obtain ⟨ih1, ih2⟩ := ih _
      rw [extractAllC_cons_new hfr hmem]
      constructor
      · rw [ih1]
        simp only [List.map_append, List.map_cons, List.map_nil]
        rw [List.append_assoc, List.singleton_append]
      · rw [ih2]
        simp only [List.map_append, List.map_cons, List.map_nil, List.length_cons]
        omega

theorem normalizeAll_products (prods : List Record) :
    ∀ st,
      (normalizeAll st "manufacturing_orders" prods).1.products
        = st.products
            ++ extractAllP (st.products.map (·.1)) st.product_id_counter prods
      ∧ (normalizeAll st "manufacturing_orders" prods).1.product_id_counter
        = st.product_id_counter
            + (extractAllP (st.products.map (·.1)) st.product_id_counter prods).length := by
  induction prods with
  | nil => intro st; exact ⟨by simp [normalizeAll, extractAllP], by simp [normalizeAll, extractAllP]⟩
  | cons r rs ih =>
    intro st
    rw [normalizeAll_cons]
    cases hfr : isFalsy (skuOf r) with
    | true =>
      have hstate : (normalize_record st r "manufacturing_orders").1 = st := by
        rw [normalize_record_manu_state, extract_product_falsy st r hfr]
      rw [hstate, extractAllP_cons_falsy hfr]
      exact ih st
    | false =>
    by_cases hmem : skuOf r ∈ st.products.map (·.1)
    · obtain ⟨c, hc⟩ := Option.isSome_iff_exists.mp
        ((lookupEntry_isSome_iff _ _).mpr hmem)
      have hstate : (normalize_record st r "manufacturing_orders").1 = st := by
        rw [normalize_record_manu_state, extract_product_hit st r c hfr hc]
      rw [hstate, extractAllP_cons_mem hfr hmem]
      exact ih st
    · have hnone : lookupEntry st.products (skuOf r) = none := by
        cases hl : lookupEntry st.products (skuOf r) with
        | none => rfl
        | some c =>
          exact absurd ((lookupEntry_isSome_iff _ _).mp (by rw [hl]; rfl)) hmem
      have hstate : (normalize_record st r "manufacturing_orders").1
          = { st with
                products := st.products ++
                  [(skuOf r,
                    ⟨st.product_id_counter, skuOf r, pnameOf r⟩)],
                product_id_counter := st.product_id_counter + 1 } := by
        rw [normalize_record_manu_state, extract_product_miss st r hfr hnone]
      rw [hstate]
      obtain ⟨ih1, ih2⟩ := ih _
      rw [extractAllP_cons_new hfr hmem]
      constructor
      · rw [ih1]
        simp only [List.map_append, List.map_cons, List.map_nil]
        rw [List.append_assoc, List.singleton_append]
      · rw [ih2]
        simp only [List.map_append, List.map_cons, List.map_nil, List.length_cons]
        omega

theorem lookupEntry_mem {α : Type} {l : List (Value × α)} {k : Value}
    {c : α} (h : lookupEntry l k = some c) : ∃ q ∈ l, q.2 = c := by
  unfold lookupEntry at h
  cases hf : l.find? (fun p => p.1 == k) with
  | none => rw [hf] at h; cases h
  | some q =>
    rw [hf] at h
    exact ⟨q, List.mem_of_find?_eq_some hf, by injection h⟩

theorem getKey?_strip_customer (r : Record) (v : Value) :
    getKey? (popKey (popKey (popKey (setKey r "customer_id" v)
      "customer_name") "customer_email") "customer_phone") "customer_id"
      = some v := by
  rw [getKey?_popKey_ne _ _ _ (by decide), getKey?_popKey_ne _ _ _ (by decide),
    getKey?_popKey_ne _ _ _ (by decide), getKey?_setKey_self]

theorem getKey?_strip_product (r : Record) (v : Value) :
    getKey? (popKey (popKey (setKey r "product_id" v) "product_name")
      "product_sku") "product_id" = some v := by
  rw [getKey?_popKey_ne _ _ _ (by decide), getKey?_popKey_ne _ _ _ (by decide),
    getKey?_setKey_self]

theorem normalize_record_sales_out_hit {st : NormState} {r : Record}
    {c : CustomerRec} (hfr : isFalsy (emailOf r) = false)
    (hc : lookupEntry st.customers (emailOf r) = some c) (hc0 : c.cid ≠ 0) :
    (normalize_record st r "sales_orders").2
      = popKey (popKey (popKey (setKey r "customer_id" (.int c.cid))
          "customer_name") "customer_email") "customer_phone" := by
  rw [normalize_record_sales, extract_customer_hit st r c hfr hc]
  dsimp only
  rw [if_pos hc0]

theorem normalize_record_sales_out_miss {st : NormState} {r : Record}
    (hfr : isFalsy (emailOf r) = false)
    (hn : lookupEntry st.customers (emailOf r) = none)
    (hc0 : st.customer_id_counter ≠ 0) :
    (normalize_record st r "sales_orders").2
      = popKey (popKey (popKey
          (setKey r "customer_id" (.int st.customer_id_counter))
          "customer_name") "customer_email") "customer_phone" := by
  rw [normalize_record_sales, extract_customer_miss st r hfr hn]
  dsimp only
  rw [if_pos hc0]

theorem normalize_record_manu_out_hit {st : NormState} {r : Record}
    {c : ProductRec} (hfr : isFalsy (skuOf r) = false)
    (hc : lookupEntry st.products (skuOf r) = some c) (hc0 : c.pid ≠ 0) :
    (normalize_record st r "manufacturing_orders").2
      = popKey (popKey (setKey r "product_id" (.int c.pid))
          "product_name") "product_sku" := by
  rw [normalize_record_manu, extract_product_hit st r c hfr hc]
  dsimp only
  rw [if_pos hc0]

theorem normalize_record_manu_out_miss {st : NormState} {r : Record}
    (hfr : isFalsy (skuOf r) = false)
    (hn : lookupEntry st.products (skuOf r) = none)
    (hc0 : st.product_id_counter ≠ 0) :
    (normalize_record st r "manufacturing_orders").2
      = popKey (popKey
          (setKey r "product_id" (.int st.product_id_counter))
          "product_name") "product_sku" := by
  rw [normalize_record_manu, extract_product_miss st r hfr hn]
  dsimp only
  rw [if_pos hc0]

theorem normalizeAll_outputs (recs : List Record) :
    ∀ st, 0 < st.customer_id_counter →
      (∀ p ∈ st.customers, 0 < (p : Value × CustomerRec).2.cid) →
      (normalizeAll st "sales_orders" recs).2.length = recs.length
      ∧ ∀ j, j < recs.length →
          isFalsy (emailOf (recs.getD j [])) = false →
          ∃ c, lookupEntry (normalizeAll st "sales_orders" recs).1.customers
                 (emailOf (recs.getD j [])) = some c
            ∧ getKey? ((normalizeAll st "sales_orders" recs).2.getD j [])
                "customer_id" = some (.int c.cid) := by
  induction recs with
  | nil =>
    intro st _ _
    exact ⟨rfl, fun j hj => absurd hj (by simp)⟩
  | cons r rs ih =>
    intro st hctr hpos
    rw [normalizeAll_cons]
    cases hfr : isFalsy (emailOf r) with
    | true =>
      have hstate : (normalize_record st r "sales_orders").1 = st := by
        rw [normalize_record_sales_state, extract_customer_falsy st r hfr]
      rw [hstate]
      obtain ⟨ihlen, ihj⟩ := ih st hctr hpos
      refine ⟨by simp [ihlen], ?_⟩
      intro j hj hjt
      cases j with
      | zero =>
        rw [List.getD_cons_zero] at hjt
        exact absurd hfr (by rw [hjt]; decide)
      | succ j =>
        have hj' : j < rs.length := by simpa using hj
        have hjt' : isFalsy (emailOf (rs.getD j [])) = false := by simpa using hjt
        obtain ⟨c', hc', hout'⟩ := ihj j hj' hjt'
        exact ⟨c', by simpa using hc', by simpa using hout'⟩
    | false =>
    by_cases hmem : emailOf r ∈ st.customers.map (·.1)
    · obtain ⟨c, hc⟩ := Option.isSome_iff_exists.mp
        ((lookupEntry_isSome_iff _ _).mpr hmem)
      have hcpos : 0 < c.cid := by
        obtain ⟨q, hq, hq2⟩ := lookupEntry_mem hc
        exact hq2 ▸ hpos q hq
      have hstate : (normalize_record st r "sales_orders").1 = st := by
        rw [normalize_record_sales_state, extract_customer_hit st r c hfr hc]
      have hout := normalize_record_sales_out_hit hfr hc (by omega)
      rw [hstate, hout]
      obtain ⟨ihlen, ihj⟩ := ih st hctr hpos
      refine ⟨by simp [ihlen], ?_⟩
      intro j hj hjt
      cases j with
      | zero =>
        refine ⟨c, ?_, ?_⟩
        · obtain ⟨hcust, _⟩ := normalizeAll_customers rs st
          rw [List.getD_cons_zero, hcust, lookupEntry_append, hc]
          rfl
        · rw [List.getD_cons_zero]
          exact getKey?_strip_customer r (.int c.cid)
      | succ j =>
        have hj' : j < rs.length := by simpa using hj
        have hjt' : isFalsy (emailOf (rs.getD j [])) = false := by simpa using hjt
        obtain ⟨c', hc', hout'⟩ := ihj j hj' hjt'
        exact ⟨c', by simpa using hc', by simpa using hout'⟩
    · have hnone : lookupEntry st.customers (emailOf r) = none := by
        cases hl : lookupEntry st.customers (emailOf r) with
        | none => rfl
        | some c =>
          exact absurd ((lookupEntry_isSome_iff _ _).mp (by rw [hl]; rfl)) hmem
      have hstate : (normalize_record st r "sales_orders").1
          = { st with
                customers := st.customers ++
                  [(emailOf r,
                    ⟨st.customer_id_counter,
                     getDefault r "customer_name" (.str ""),
                     emailOf r,
                     getDefault r "customer_phone" (.str "")⟩)],
                customer_id_counter := st.customer_id_counter + 1 } := by
        rw [normalize_record_sales_state, extract_customer_miss st r hfr hnone]
      have hout := normalize_record_sales_out_miss hfr hnone (by omega)
      rw [hstate, hout]
      have hctr₂ : 0 < st.customer_id_counter + 1 := by omega
      have hpos₂ : ∀ p ∈ st.customers ++
          [(emailOf r,
            (⟨st.customer_id_counter,
             getDefault r "customer_name" (.str ""),
             emailOf r,
             getDefault r "customer_phone" (.str "")⟩ : CustomerRec))],
          0 < (p : Value × CustomerRec).2.cid := by
        intro q hq
        rcases List.mem_append.mp hq with hq1 | hq2
        · exact hpos q hq1
        · rw [List.mem_singleton.mp hq2]
          exact hctr
      obtain ⟨ihlen, ihj⟩ := ih
        { st with
            customers := st.customers ++
              [(emailOf r,
                ⟨st.customer_id_counter,
                 getDefault r "customer_name" (.str ""),
                 emailOf r,
                 getDefault r "customer_phone" (.str "")⟩)],
            customer_id_counter := st.customer_id_counter + 1 }
        hctr₂ hpos₂
      refine ⟨by simp [ihlen], ?_⟩
      intro j hj hjt
      cases j with
      | zero =>
        refine ⟨⟨st.customer_id_counter,
                 getDefault r "customer_name" (.str ""),
                 emailOf r,
                 getDefault r "customer_phone" (.str "")⟩, ?_, ?_⟩
        · obtain ⟨hcust, _⟩ := normalizeAll_customers rs _
          rw [List.getD_cons_zero, hcust]
          dsimp only
          rw [List.append_assoc, lookupEntry_append, hnone, Option.none_or,
            lookupEntry_append, lookupEntry_singleton_self]
          rfl
        · rw [List.getD_cons_zero]
          exact getKey?_strip_customer r (.int st.customer_id_counter)
      | succ j =>
        have hj' : j < rs.length := by simpa using hj
        have hjt' : isFalsy (emailOf (rs.getD j [])) = false := by simpa using hjt
        obtain ⟨c', hc', hout'⟩ := ihj j hj' hjt'
        exact ⟨c', by simpa using hc', by simpa using hout'⟩

theorem normalizeAll_products_outputs (prods : List Record) :
    ∀ st, 0 < st.product_id_counter →
      (∀ p ∈ st.products, 0 < (p : Value × ProductRec).2.pid) →
      (normalizeAll st "manufacturing_orders" prods).2.length = prods.length
      ∧ ∀ j, j < prods.length →
          isFalsy (skuOf (prods.getD j [])) = false →
          ∃ c, lookupEntry (normalizeAll st "manufacturing_orders" prods).1.products
                 (skuOf (prods.getD j [])) = some c
            ∧ getKey? ((normalizeAll st "manufacturing_orders" prods).2.getD j [])
                "product_id" = some (.int c.pid) := by
  induction prods with
  | nil =>
    intro st _ _
    exact ⟨rfl, fun j hj => absurd hj (by simp)⟩
  | cons r rs ih =>
    intro st hctr hpos
    rw [normalizeAll_cons]
    cases hfr : isFalsy (skuOf r) with
    | true =>
      have hstate : (normalize_record st r "manufacturing_orders").1 = st := by
        rw [normalize_record_manu_state, extract_product_falsy st r hfr]
      rw [hstate]
      obtain ⟨ihlen, ihj⟩ := ih st hctr hpos
      refine ⟨by simp [ihlen], ?_⟩
      intro j hj hjt
      cases j with
      | zero =>
        rw [List.getD_cons_zero] at hjt
        exact absurd hfr (by rw [hjt]; decide)
      | succ j =>
        have hj' : j < rs.length := by simpa using hj
        have hjt' : isFalsy (skuOf (rs.getD j [])) = false := by simpa using hjt
        obtain ⟨c', hc', hout'⟩ := ihj j hj' hjt'
        exact ⟨c', by simpa using hc', by simpa using hout'⟩
    | false =>
    by_cases hmem : skuOf r ∈ st.products.map (·.1)
    · obtain ⟨c, hc⟩ := Option.isSome_iff_exists.mp
        ((lookupEntry_isSome_iff _ _).mpr hmem)
      have hcpos : 0 < c.pid := by
        obtain ⟨q, hq, hq2⟩ := lookupEntry_mem hc
        exact hq2 ▸ hpos q hq
      have hstate : (normalize_record st r "manufacturing_orders").1 = st := by
        rw [normalize_record_manu_state, extract_product_hit st r c hfr hc]
      have hout := normalize_record_manu_out_hit hfr hc (by omega)
      rw [hstate, hout]
      obtain ⟨ihlen, ihj⟩ := ih st hctr hpos
      refine ⟨by simp [ihlen], ?_⟩
      intro j hj hjt
      cases j with
      | zero =>
        refine ⟨c, ?_, ?_⟩
        · obtain ⟨hprod, _⟩ := normalizeAll_products rs st
          rw [List.getD_cons_zero, hprod, lookupEntry_append, hc]
          rfl
        · rw [List.getD_cons_zero]
          exact getKey?_strip_product r (.int c.pid)
      | succ j =>
        have hj' : j < rs.length := by simpa using hj
        have hjt' : isFalsy (skuOf (rs.getD j [])) = false := by simpa using hjt
        obtain ⟨c', hc', hout'⟩ := ihj j hj' hjt'
        exact ⟨c', by simpa using hc', by simpa using hout'⟩
    · have hnone : lookupEntry st.products (skuOf r) = none := by
        cases hl : lookupEntry st.products (skuOf r) with
        | none => rfl
        | some c =>
          exact absurd ((lookupEntry_isSome_iff _ _).mp (by rw [hl]; rfl)) hmem
      have hstate : (normalize_record st r "manufacturing_orders").1
          = { st with
                products := st.products ++
                  [(skuOf r,
                    ⟨st.product_id_counter, skuOf r, pnameOf r⟩)],
                product_id_counter := st.product_id_counter + 1 } := by
        rw [normalize_record_manu_state, extract_product_miss st r hfr hnone]
      have hout := normalize_record_manu_out_miss hfr hnone (by omega)
      rw [hstate, hout]
      have hctr₂ : 0 < st.product_id_counter + 1 := by omega
      have hpos₂ : ∀ p ∈ st.products ++
          [(skuOf r,
            (⟨st.product_id_counter, skuOf r, pnameOf r⟩ : ProductRec))],
          0 < (p : Value × ProductRec).2.pid := by
        intro q hq
        rcases List.mem_append.mp hq with hq1 | hq2
        · exact hpos q hq1
        · rw [List.mem_singleton.mp hq2]
          exact hctr
      obtain ⟨ihlen, ihj⟩ := ih
        { st with
            products := st.products ++
              [(skuOf r,
                ⟨st.product_id_counter, skuOf r, pnameOf r⟩)],
            product_id_counter := st.product_id_counter + 1 }
        hctr₂ hpos₂
      refine ⟨by simp [ihlen], ?_⟩
      intro j hj hjt
      cases j with
      | zero =>
        refine ⟨⟨st.product_id_counter, skuOf r, pnameOf r⟩, ?_, ?_⟩
        · obtain ⟨hprod, _⟩ := normalizeAll_products rs _
          rw [List.getD_cons_zero, hprod]
          dsimp only
          rw [List.append_assoc, lookupEntry_append, hnone, Option.none_or,
            lookupEntry_append, lookupEntry_singleton_self]
          rfl
        · rw [List.getD_cons_zero]
          exact getKey?_strip_product r (.int st.product_id_counter)
      | succ j =>
        have hj' : j < rs.length := by simpa using hj
        have hjt' : isFalsy (skuOf (rs.getD j [])) = false := by simpa using hjt
        obtain ⟨c', hc', hout'⟩ := ihj j hj' hjt'
        exact ⟨c', by simpa using hc', by simpa using hout'⟩

/-! ## Lemmas about the seeding session -/

theorem attemptOp_ok {ok : Bool} {op : SeedOp} {st st' : RunSt}
    (h : attemptOp ok op st = .ok st') :
    st' = { st with trace := st.trace ++ [op] } ∧ ok = true := by
  unfold attemptOp at h
  split at h
  · exact ⟨by injection h with h'; exact h'.symm, by assumption⟩
  · cases h

theorem attemptOp_error {ok : Bool} {op : SeedOp} {st st' : RunSt}
    (h : attemptOp ok op st = .error st') :
    st'.trace = st.trace ++ [op]
      ∧ st'.msgs = st.msgs ++ [SeedMsg.errorReport] ∧ ok = false := by
  unfold attemptOp at h
  split at h
  · cases h
  · next hok =>
    injection h with h'
    refine ⟨by rw [← h'], by rw [← h'], ?_⟩
    cases ok
    · rfl
    · exact absurd rfl hok

theorem clearStep_trace (b : Behavior) (doClear norm : Bool) (tbl : String)
    (st : RunSt) :
    ∃ ops, (clearStep b doClear norm tbl st).trace = st.trace ++ ops
      ∧ (clearStep b doClear norm tbl st).msgs = st.msgs
      ∧ ∀ q ∈ ops, ∃ t, q = SeedOp.opDrop t := by
  unfold clearStep
  split
  · split
    · split
      · split
        · exact ⟨_, rfl, rfl, by intro q hq; fin_cases hq <;> exact ⟨_, rfl⟩⟩
        · exact ⟨_, rfl, rfl, by intro q hq; fin_cases hq <;> exact ⟨_, rfl⟩⟩
      · exact ⟨_, rfl, rfl, by intro q hq; fin_cases hq <;> exact ⟨_, rfl⟩⟩
    · exact ⟨_, rfl, rfl, by intro q hq; fin_cases hq <;> exact ⟨_, rfl⟩⟩
  · exact ⟨[], by simp, rfl, by intro q hq; cases hq⟩

theorem insertLoop_ok {b : Behavior} :
    ∀ (n i : Nat) (st st' : RunSt), insertLoop b n i st = .ok st' →
      ∃ ops, st'.trace = st.trace ++ ops ∧ st'.msgs = st.msgs
        ∧ ∀ q ∈ ops, ∃ j, q = SeedOp.opInsert j := by
  intro n
  induction n with
  | zero =>
    intro i st st' h
    injection h with h'
    exact ⟨[], by rw [← h']; simp, by rw [← h'], by intro q hq; cases hq⟩
  | succ n ih =>
    intro i st st' h
    unfold insertLoop at h
    cases h1 : attemptOp (b.insert_ok i) (.opInsert i) st with
    | error st1 => rw [h1] at h; cases h
    | ok st1 =>
      rw [h1] at h
      obtain ⟨hst1, _⟩ := attemptOp_ok h1
      obtain ⟨ops, htr, hmsg, hshape⟩ := ih (i + 1) st1 st' h
      refine ⟨SeedOp.opInsert i :: ops, ?_, ?_, ?_⟩
      · rw [htr, hst1]
        simp
      · rw [hmsg, hst1]
      · intro q hq
        rcases List.mem_cons.mp hq with rfl | hq'
        · exact ⟨i, rfl⟩
        · exact hshape q hq'

theorem insertLoop_error {b : Behavior} :
    ∀ (n i : Nat) (st st' : RunSt), insertLoop b n i st = .error st' →
      ∃ ops j, st'.trace = st.trace ++ ops ++ [SeedOp.opInsert j]
        ∧ st'.msgs = st.msgs ++ [SeedMsg.errorReport]
        ∧ b.insert_ok j = false
        ∧ ∀ q ∈ ops, ∃ j', q = SeedOp.opInsert j' := by
  intro n
  induction n with
  | zero => intro i st st' h; cases h
  | succ n ih =>
    intro i st st' h
    unfold insertLoop at h
    cases h1 : attemptOp (b.insert_ok i) (.opInsert i) st with
    | error st1 =>
      rw [h1] at h
      injection h with h'
      subst h'
      obtain ⟨htr, hmsg, hok⟩ := attemptOp_error h1
      exact ⟨[], i, by rw [htr]; simp, hmsg, hok, by intro q hq; cases hq⟩
    | ok st1 =>
      rw [h1] at h
      obtain ⟨hst1, _⟩ := attemptOp_ok h1
      obtain ⟨ops, j, htr, hmsg, hok, hshape⟩ := ih (i + 1) st1 st' h
      refine ⟨SeedOp.opInsert i :: ops, j, ?_, ?_, hok, ?_⟩
      · rw [htr, hst1]
        simp
      · rw [hmsg, hst1]
      · intro q hq
        rcases List.mem_cons.mp hq with rfl | hq'
        · exact ⟨i, rfl⟩
        · exact hshape q hq'

theorem insertLoop_ok_of_all {b : Behavior} (hall : ∀ i, b.insert_ok i = true) :
    ∀ (n i : Nat) (st : RunSt), ∃ st', insertLoop b n i st = .ok st' := by
  intro n
  induction n with
  | zero => exact fun i st => ⟨st, rfl⟩
  | succ n ih =>
    intro i st
    obtain ⟨st', hst'⟩ := ih (i + 1) { st with trace := st.trace ++ [.opInsert i] }
    refine ⟨st', ?_⟩
    unfold insertLoop attemptOp
    rw [hall i, if_pos rfl]
    exact hst'

theorem seedBody_error (b : Behavior) (a : SeedArgs) :
    ∀ st st', seedBody b a st = .error st' →
      st'.msgs = st.msgs ++ [SeedMsg.errorReport]
      ∧ (∃ op, st'.trace.getLast? = some op ∧ opFails b op = true)
      ∧ (SeedOp.opDisconnect ∉ st.trace →
          SeedOp.opDisconnect ∈ st'.trace → b.disconnect_ok = false) := by
  intro st st' h
  unfold seedBody at h
  dsimp only at h
  cases h1 : attemptOp b.connect_ok .opConnect st with
  | error e =>
    rw [h1] at h
    dsimp only at h
    injection h with h'
    subst h'
    obtain ⟨htr, hmsg, hok⟩ := attemptOp_error h1
    refine ⟨hmsg, ⟨.opConnect, by rw [htr, List.getLast?_concat], by simp [opFails, hok]⟩, ?_⟩
    intro hnd hmem
    rw [htr] at hmem
    rcases List.mem_append.mp hmem with hA | hB
    · exact absurd hA hnd
    · cases List.mem_singleton.mp hB
  | ok st1 =>
    rw [h1] at h
    dsimp only at h
    obtain ⟨hst1, _⟩ := attemptOp_ok h1
    obtain ⟨dops, hctr, hcmsg, hcshape⟩ := clearStep_trace b a.clear
      (a.normalize && b.supports_normalization)
      (if (a.normalize && b.supports_normalization) = true then
        a.table_name ++ "_normalized" else a.table_name) st1
    set st2 := clearStep b a.clear (a.normalize && b.supports_normalization)
      (if (a.normalize && b.supports_normalization) = true then
        a.table_name ++ "_normalized" else a.table_name) st1 with hst2
    have hT2 : st2.trace = st.trace ++ [SeedOp.opConnect] ++ dops := by
      rw [hctr, hst1]
    have hM2 : st2.msgs = st.msgs := by rw [hcmsg, hst1]
    have hND2 : SeedOp.opDisconnect ∉ st.trace → SeedOp.opDisconnect ∉ st2.trace := by
      intro hnd hmem
      rw [hT2] at hmem
      rcases List.mem_append.mp hmem with hA | hB
      · rcases List.mem_append.mp hA with hA' | hA''
        · exact hnd hA'
        · cases List.mem_singleton.mp hA''
      · obtain ⟨t, ht⟩ := hcshape _ hB
        cases ht
    cases h2 : (if (a.normalize && b.supports_normalization) = true then
        attemptOp b.create_norm_ok .opCreateNorm st2 else .ok st2) with
    | error e =>
      rw [h2] at h
      dsimp only at h
      injection h with h'
      subst h'
      have hsplit : e.trace = st2.trace ++ [SeedOp.opCreateNorm]
          ∧ e.msgs = st2.msgs ++ [SeedMsg.errorReport]
          ∧ b.create_norm_ok = false := by
        split at h2
        · exact attemptOp_error h2
        · cases h2
      obtain ⟨htr, hmsg, hok⟩ := hsplit
      refine ⟨by rw [hmsg, hM2],
        ⟨.opCreateNorm, by rw [htr, List.getLast?_concat], by simp [opFails, hok]⟩, ?_⟩
      intro hnd hmem
      rw [htr] at hmem
      rcases List.mem_append.mp hmem with hA | hB
      · exact (hND2 hnd hA).elim
      · cases List.mem_singleton.mp hB
    | ok st3 =>
      rw [h2] at h
      dsimp only at h
      have hst3 : st3.trace = st2.trace ∨ st3.trace = st2.trace ++ [SeedOp.opCreateNorm] := by
        split at h2
        · exact Or.inr (by rw [(attemptOp_ok h2).1]
        )
        · injection h2 with h'
          exact Or.inl (by rw [← h'])
      have hM3 : st3.msgs = st2.msgs := by
        rcases hsplit3 : st3.trace with _ | _
        all_goals
          split at h2
          · rw [(attemptOp_ok h2).1]
          · injection h2 with h'
            rw [← h']
      have hND3 : SeedOp.opDisconnect ∉ st.trace → SeedOp.opDisconnect ∉ st3.trace := by
        intro hnd hmem
        rcases hst3 with he | he
        · exact hND2 hnd (he ▸ hmem)
        · rw [he] at hmem
          rcases List.mem_append.mp hmem with hA | hB
          · exact hND2 hnd hA
          · cases List.mem_singleton.mp hB
      cases h3 : attemptOp b.create_ok .opCreateTable st3 with
      | error e =>
        rw [h3] at h
        dsimp only at h
        injection h with h'
        subst h'
        obtain ⟨htr, hmsg, hok⟩ := attemptOp_error h3
        refine ⟨by rw [hmsg, hM3, hM2],
          ⟨.opCreateTable, by rw [htr, List.getLast?_concat], by simp [opFails, hok]⟩, ?_⟩
        intro hnd hmem
        rw [htr] at hmem
        rcases List.mem_append.mp hmem with hA | hB
        · exact (hND3 hnd hA).elim
        · cases List.mem_singleton.mp hB
      | ok st4 =>
        rw [h3] at h
        dsimp only at h
        obtain ⟨hst4, _⟩ := attemptOp_ok h3
        have hM4 : st4.msgs = st.msgs := by rw [hst4, hM3, hM2]
        have hND4 : SeedOp.opDisconnect ∉ st.trace → SeedOp.opDisconnect ∉ st4.trace := by
          intro hnd hmem
          rw [hst4] at hmem
          rcases List.mem_append.mp hmem with hA | hB
          · exact hND3 hnd hA
          · cases List.mem_singleton.mp hB
        cases h4 : (if (a.normalize && b.supports_normalization) && a.has_entities then
            attemptOp b.insert_entities_ok .opInsertEntities st4 else .ok st4) with
        | error e =>
          rw [h4] at h
          dsimp only at h
          injection h with h'
          subst h'
          have hsplit : e.trace = st4.trace ++ [SeedOp.opInsertEntities]
              ∧ e.msgs = st4.msgs ++ [SeedMsg.errorReport]
              ∧ b.insert_entities_ok = false := by
            split at h4
            · exact attemptOp_error h4
            · cases h4
          obtain ⟨htr, hmsg, hok⟩ := hsplit
          refine ⟨by rw [hmsg, hM4],
            ⟨.opInsertEntities, by rw [htr, List.getLast?_concat], by simp [opFails, hok]⟩, ?_⟩
          intro hnd hmem
          rw [htr] at hmem
          rcases List.mem_append.mp hmem with hA | hB
          · exact (hND4 hnd hA).elim
          · cases List.mem_singleton.mp hB
        | ok st5 =>
          rw [h4] at h
          dsimp only at h
          have hst5 : st5.trace = st4.trace
              ∨ st5.trace = st4.trace ++ [SeedOp.opInsertEntities] := by
            split at h4
            · exact Or.inr (by rw [(attemptOp_ok h4).1])
            · injection h4 with h'
              exact Or.inl (by rw [← h'])
          have hM5 : st5.msgs = st4.msgs := by
            split at h4
            · rw [(attemptOp_ok h4).1]
            · injection h4 with h'
              rw [← h']
          have hND5 : SeedOp.opDisconnect ∉ st.trace → SeedOp.opDisconnect ∉ st5.trace := by
            intro hnd hmem
            rcases hst5 with he | he
            · exact hND4 hnd (he ▸ hmem)
            · rw [he] at hmem
              rcases List.mem_append.mp hmem with hA | hB
              · exact hND4 hnd hA
              · cases List.mem_singleton.mp hB
          cases h5 : insertLoop b
              (generate_batches_sizes a.count a.batch_size).length 0 st5 with
          | error e =>
            rw [h5] at h
            dsimp only at h
            injection h with h'
            subst h'
            obtain ⟨ops, j, htr, hmsg, hok, hshape⟩ := insertLoop_error _ _ st5 e h5
            refine ⟨by rw [hmsg, hM5, hM4],
              ⟨.opInsert j, by rw [htr, List.getLast?_concat],
               by simp [opFails, hok]⟩, ?_⟩
            intro hnd hmem
            rw [htr] at hmem
            rcases List.mem_append.mp hmem with hA | hB
            · rcases List.mem_append.mp hA with hA' | hA''
              · exact (hND5 hnd hA').elim
              · obtain ⟨j', hj'⟩ := hshape _ hA''
                cases hj'
            · cases List.mem_singleton.mp hB
          | ok st6 =>
            rw [h5] at h
            dsimp only at h
            obtain ⟨ops, htr6, hM6, hshape6⟩ := insertLoop_ok _ _ st5 st6 h5
            have hND6 : SeedOp.opDisconnect ∉ st.trace → SeedOp.opDisconnect ∉ st6.trace := by
              intro hnd hmem
              rw [htr6] at hmem
              rcases List.mem_append.mp hmem with hA | hB
              · exact hND5 hnd hA
              · obtain ⟨j', hj'⟩ := hshape6 _ hB
                cases hj'
            cases h6 : attemptOp b.count_ok .opCount st6 with
            | error e =>
              rw [h6] at h
              dsimp only at h
              injection h with h'
              subst h'
              obtain ⟨htr, hmsg, hok⟩ := attemptOp_error h6
              refine ⟨by rw [hmsg, hM6, hM5, hM4],
                ⟨.opCount, by rw [htr, List.getLast?_concat], by simp [opFails, hok]⟩, ?_⟩
              intro hnd hmem
              rw [htr] at hmem
              rcases List.mem_append.mp hmem with hA | hB
              · exact (hND6 hnd hA).elim
              · cases List.mem_singleton.mp hB
            | ok st7 =>
              rw [h6] at h
              dsimp only at h
              obtain ⟨hst7, _⟩ := attemptOp_ok h6
              have hM7 : st7.msgs = st.msgs := by rw [hst7, hM6, hM5, hM4]
              cases h7 : attemptOp b.disconnect_ok .opDisconnect st7 with
              | error e =>
                rw [h7] at h
                injection h with h'
                subst h'
                obtain ⟨htr, hmsg, hok⟩ := attemptOp_error h7
                exact ⟨by rw [hmsg, hM7],
                  ⟨.opDisconnect, by rw [htr, List.getLast?_concat],
                   by simp [opFails, hok]⟩,
                  fun _ _ => hok⟩
              | ok st8 =>
                rw [h7] at h
                dsimp only at h
                cases h

theorem attemptOp_ok_eq {ok : Bool} (op : SeedOp) (st : RunSt)
    (h : ok = true) :
    attemptOp ok op st = .ok { st with trace := st.trace ++ [op] } := by
  unfold attemptOp
  rw [h, if_pos rfl]

theorem seedBody_flat_ok (b : Behavior) (a : SeedArgs) (st : RunSt)
    (hnorm : (a.normalize && b.supports_normalization) = false)
    (hc : b.connect_ok = true) (hcr : b.create_ok = true)
    (hins : ∀ i, b.insert_ok i = true) (hcnt : b.count_ok = true)
    (hdis : b.disconnect_ok = true) :
    ∃ st', seedBody b a st = .ok st'
      ∧ st'.msgs = st.msgs ++ [SeedMsg.successReport]
      ∧ ∀ q ∈ st'.trace, q ∈ st.trace ∨ q = SeedOp.opConnect
          ∨ (∃ t, q = SeedOp.opDrop t) ∨ q = SeedOp.opCreateTable
          ∨ (∃ i, q = SeedOp.opInsert i) ∨ q = SeedOp.opCount
          ∨ q = SeedOp.opDisconnect := by
  unfold seedBody
  dsimp only
  simp only [hnorm, Bool.false_and, Bool.false_eq_true, if_false]
  rw [attemptOp_ok_eq SeedOp.opConnect st hc]
  dsimp only
  obtain ⟨dops, hctr, hcmsg, hcshape⟩ := clearStep_trace b a.clear false
    a.table_name { st with trace := st.trace ++ [SeedOp.opConnect] }
  set st2 := clearStep b a.clear false a.table_name
    { st with trace := st.trace ++ [SeedOp.opConnect] } with hst2
  rw [attemptOp_ok_eq SeedOp.opCreateTable st2 hcr]
  dsimp only
  obtain ⟨st6, h5⟩ := insertLoop_ok_of_all hins
    (generate_batches_sizes a.count a.batch_size).length 0
    { st2 with trace := st2.trace ++ [SeedOp.opCreateTable] }
  rw [h5]
  dsimp only
  obtain ⟨iops, hitr, himsg, hishape⟩ := insertLoop_ok _ _ _ _ h5
  rw [attemptOp_ok_eq SeedOp.opCount st6 hcnt]
  dsimp only
  rw [attemptOp_ok_eq SeedOp.opDisconnect
    { st6 with trace := st6.trace ++ [SeedOp.opCount] } hdis]
  dsimp only
  refine ⟨_, rfl, ?_, ?_⟩
  · dsimp only
    rw [himsg]
    dsimp only
    rw [hcmsg]
  · intro q hq
    dsimp only at hq
    rw [hitr] at hq
    dsimp only at hq
    rw [hctr] at hq
    dsimp only at hq
    simp only [List.append_assoc, List.mem_append, List.mem_singleton] at hq
    rcases hq with hq | hq | hq | hq | hq | hq | hq
    · exact Or.inl hq
    · exact Or.inr (Or.inl hq)
    · exact Or.inr (Or.inr (Or.inl (hcshape q hq)))
    · exact Or.inr (Or.inr (Or.inr (Or.inl hq)))
    · exact Or.inr (Or.inr (Or.inr (Or.inr (Or.inl (hishape q hq)))))
    · exact Or.inr (Or.inr (Or.inr (Or.inr (Or.inr (Or.inl hq)))))
    · exact Or.inr (Or.inr (Or.inr (Or.inr (Or.inr (Or.inr hq)))))

/-! ## Lemmas about batching -/

theorem generate_batches_sizes_spec :
    ∀ total batch_size : Nat, 0 < total → 0 < batch_size →
      (generate_batches_sizes total batch_size).length
          = (total + batch_size - 1) / batch_size
      ∧ (∀ i, i + 1 < (generate_batches_sizes total batch_size).length →
          (generate_batches_sizes total batch_size).getD i 0 = batch_size)
      ∧ (generate_batches_sizes total batch_size).sum = total := by
  intro total
  induction total using Nat.strong_induction_on with
  | _ total ih =>
    intro bs ht hb
    rw [generate_batches_sizes, dif_pos ⟨ht, hb⟩]
    by_cases hle : total ≤ bs
    · have hmin : min bs total = total := by omega
      rw [hmin, Nat.sub_self, generate_batches_sizes, dif_neg (by omega)]
      refine ⟨?_, ?_, ?_⟩
      · rw [List.length_cons, List.length_nil]
        exact (Nat.div_eq_of_lt_le (by omega) (by omega)).symm
      · intro i hi
        rw [List.length_cons, List.length_nil] at hi
        omega
      · simp
    · have hmin : min bs total = bs := by omega
      obtain ⟨ihlen, ihall, ihsum⟩ := ih (total - bs) (by omega) bs (by omega) hb
      rw [hmin]
      refine ⟨?_, ?_, ?_⟩
      · rw [List.length_cons, ihlen]
        have h1 : total - bs + bs - 1 = total - 1 := by omega
        have h2 : total + bs - 1 = total - 1 + bs := by omega
        rw [h1, h2, Nat.add_div_right _ hb]
      · intro i hi
        cases i with
        | zero => rfl
        | succ i =>
          rw [List.getD_cons_succ]
          apply ihall
          rw [List.length_cons] at hi
          omega
      · rw [List.sum_cons, ihsum]
        omega

theorem generate_batch_length {fk : String → Nat → Value} {sc : Schema}
    {s e : Int} {o : Nat → Nat} :
    ∀ n i batch i', generate_batch fk sc s e o n i = some (batch, i') →
      batch.length = n := by
  intro n
  induction n with
  | zero =>
    intro i batch i' h
    injection h with h'
    injection h' with h1 h2
    rw [← h1]
    rfl
  | succ n ihn =>
    intro i batch i' h
    unfold generate_batch at h
    cases h1 : generate_record fk sc s e o i with
    | none => rw [h1] at h; cases h
    | some p =>
      obtain ⟨r, j⟩ := p
      rw [h1] at h
      dsimp only at h
      cases h2 : generate_batch fk sc s e o n j with
      | none => rw [h2] at h; cases h
      | some q =>
        obtain ⟨rs, j'⟩ := q
        rw [h2] at h
        injection h with h'
        injection h' with hb hi
        rw [← hb, List.length_cons, ihn j rs j' h2]

theorem generate_batch_total {sc : Schema} (hsc : sc ∈ registrySchemas)
    (fk : String → Nat → Value) (o : Nat → Nat) {s e : Int} (hse : s ≤ e) :
    ∀ n i, ∃ batch i', generate_batch fk sc s e o n i = some (batch, i') := by
  intro n
  induction n with
  | zero => exact fun i => ⟨[], i, rfl⟩
  | succ n ihn =>
    intro i
    obtain ⟨rec, i1, hgen, _⟩ := registry_master sc hsc fk o s e hse i
    obtain ⟨batch, i2, hbatch⟩ := ihn i1
    refine ⟨rec :: batch, i2, ?_⟩
    unfold generate_batch
    rw [hgen]
    dsimp only
    rw [hbatch]

/-! ## Heap access lemmas -/

theorem heapGet_append_lt (h : Heap) (x : Record) {ref : Nat}
    (href : ref < h.length) : heapGet (h ++ [x]) ref = heapGet h ref := by
  unfold heapGet
  rw [List.get?_append href]

theorem heapGet_append_self (h : Heap) (x : Record) :
    heapGet (h ++ [x]) h.length = x := by
  unfold heapGet
  rw [List.get?_concat_length]
  rfl

theorem heapGet_heapSet_ne (h : Heap) (r : Record) {i j : Nat} (hij : i ≠ j) :
    heapGet (heapSet h i r) j = heapGet h j := by
  unfold heapGet heapSet
  rw [List.get?_set_ne r h hij]

theorem heapGet_heapSet_self (h : Heap) (r : Record) {i : Nat}
    (hi : i < h.length) : heapGet (heapSet h i r) i = r := by
  unfold heapGet heapSet
  rw [List.get?_set_eq]
  cases hx : h.get? i with
  | none =>
    exfalso
    rw [List.get?_eq_none] at hx
    omega
  | some y => rfl

theorem heapSet_length (h : Heap) (i : Nat) (r : Record) :
    (heapSet h i r).length = h.length := by
  unfold heapSet
  rw [List.length_set]

/-! ## Registry facts -/

theorem registry_mem_cases (sc : Schema) (hsc : sc ∈ registrySchemas) :
    sc = CONTACTS ∨ sc = SALES_ORDERS ∨ sc = MANUFACTURING_ORDERS
      ∨ sc = PRODUCTS ∨ sc = INVOICES := by
  simpa [registrySchemas, SCHEMAS] using hsc

theorem registry_id_serial (sc : Schema) (hsc : sc ∈ registrySchemas) :
    ∀ f ∈ sc.fields, f.name = "id" → isSkippedField f = true := by
  rcases registry_mem_cases sc hsc with rfl | rfl | rfl | rfl | rfl <;> decide

theorem registry_nullable_not_skipped (sc : Schema)
    (hsc : sc ∈ registrySchemas) :
    ∀ f ∈ sc.fields, f.nullable = true → isSkippedField f = false := by
  rcases registry_mem_cases sc hsc with rfl | rfl | rfl | rfl | rfl <;> decide

/-! ## The claims -/

/-- C1: the claim that every backend's `insert_batch` returns only the
count of rows actually persisted is broken by the DuckDB backend, which
returns `len(records)` after an `INSERT OR IGNORE` that silently skipped
the colliding rows: inserting a 2-record batch in which exactly one row
collides with an already-persisted unique value persists one row but
returns 2, contradicting both the base-class contract ("Returns the
number of records inserted") and the claimed `batch length - k`; the
Postgres backend, which sums `cursor.rowcount`, returns 1 as claimed. -/
theorem c1_duckdb_returns_batch_length :
    (duckdb_insert_batch
        ⟨["id", "order_number"],
         [[("order_number", .str "ORD-A"), ("id", .int 1)]]⟩ 2
        [[("order_number", .str "ORD-A")], [("order_number", .str "ORD-B")]]).2.2
      = 2
    ∧ (duckdb_insert_batch
        ⟨["id", "order_number"],
         [[("order_number", .str "ORD-A"), ("id", .int 1)]]⟩ 2
        [[("order_number", .str "ORD-A")], [("order_number", .str "ORD-B")]]).1.rows.length
      = 2
    ∧ (postgres_insert_batch
        ⟨["id", "order_number"],
         [[("order_number", .str "ORD-A"), ("id", .int 1)]]⟩
        [[("order_number", .str "ORD-A")], [("order_number", .str "ORD-B")]]).2
      = 1 := by
  decide

/-- C2: for every schema in the registry, every generated record contains
every non-nullable field (other than the auto-increment `id`, whose
SQL-type hint contains `SERIAL` in all five registered schemas) and never
contains the `id` key. -/
theorem c2_generate_record_fields (sc : Schema) (hsc : sc ∈ registrySchemas)
    (fk : String → Nat → Value) (o : Nat → Nat) (s e : Int) (hse : s ≤ e)
    (i : Nat) :
    ∃ rec i', generate_record fk sc s e o i = some (rec, i')
      ∧ (∀ f ∈ sc.fields, f.nullable = false →
          ¬ (f.name = "id" ∧ strContains f.sql_type "SERIAL" = true) →
          containsKey rec f.name = true)
      ∧ containsKey rec "id" = false := by
  obtain ⟨rec, i', hgen, _, _, hkeys, hnoid⟩ :=
    registry_master sc hsc fk o s e hse i
  refine ⟨rec, i', hgen, ?_, hnoid (registry_id_serial sc hsc)⟩
  intro f hf _ hnid
  apply hkeys f hf
  unfold isSkippedField
  by_cases hn : f.name = "id"
  · cases hsql : strContains f.sql_type "SERIAL"
    · simp
    · exact absurd ⟨hn, hsql⟩ hnid
  · rw [show (f.name == "id") = false by simp [hn], Bool.false_and]

/-- C2 witness: the contacts schema at a concrete window and oracle. -/
theorem c2_generate_record_fields_witness :
    ∃ rec i', generate_record (fun _ _ => .str "x") CONTACTS 0 86400
        (fun _ => 1) 0 = some (rec, i')
      ∧ (∀ f ∈ CONTACTS.fields, f.nullable = false →
          ¬ (f.name = "id" ∧ strContains f.sql_type "SERIAL" = true) →
          containsKey rec f.name = true)
      ∧ containsKey rec "id" = false :=
  c2_generate_record_fields CONTACTS (by decide) (fun _ _ => .str "x")
    (fun _ => 1) 0 86400 (by decide) 0

/-- C3 fails as stated: generating a sales order over the window
`[0, 86400]` with an oracle on which every nullable 20% draw fires makes
the TIMESTAMP field `ship_date` equal to `None`, which is not the
time-field value plus a 0–30 day offset (and lies in no date window). -/
theorem c3_nullable_timestamp_counterexample :
    (generate_record (fun _ _ => .str "x") SALES_ORDERS 0 86400
        (fun _ => 1) 0).map (fun p => getKey? p.1 "ship_date")
      = some (some .null)
    ∧ ∀ t : Int, Value.null ≠ Value.time t := by
  refine ⟨by decide, ?_⟩
  intro t h
  cases h

/-- C3 amended: for every registered schema, the time field lies within
`[start_date, end_date]`, and every other `TIMESTAMP` field either equals
the time-field value plus a 0–30 day offset (hence lies within
`[start_date, end_date + 30 days]`) or is `None`, the latter only for
nullable timestamp fields — the case the original claim omits, produced
by the 20% nullable overwrite. -/
theorem c3_timestamps_amended (sc : Schema) (hsc : sc ∈ registrySchemas)
    (fk : String → Nat → Value) (o : Nat → Nat) (s e : Int) (hse : s ≤ e)
    (i : Nat) :
    ∃ rec i', generate_record fk sc s e o i = some (rec, i')
      ∧ ∃ t, getKey? rec sc.time_field = some (.time t) ∧ s ≤ t ∧ t ≤ e
        ∧ ∀ f ∈ sc.fields, f.sql_type = "TIMESTAMP" →
            ¬ f.name = sc.time_field →
            ∃ v, getKey? rec f.name = some v ∧
              ((v = .null ∧ f.nullable = true) ∨ ∃ d : Nat, d ≤ 30
                ∧ v = .time (t + 86400 * (d : Int))
                ∧ s ≤ t + 86400 * (d : Int)
                ∧ t + 86400 * (d : Int) ≤ e + 86400 * 30) := by
  obtain ⟨rec, i', hgen, ⟨t, hslot, hts, hte⟩, htimes, _, _⟩ :=
    registry_master sc hsc fk o s e hse i
  refine ⟨rec, i', hgen, t, hslot, hts, hte, ?_⟩
  intro f hf hfts hfname
  obtain ⟨v, hv, hcase⟩ := htimes t hslot f hf hfname hfts
  refine ⟨v, hv, ?_⟩
  rcases hcase with ⟨rfl, hnul⟩ | ⟨d, hd, rfl⟩
  · exact Or.inl ⟨rfl, hnul⟩
  · refine Or.inr ⟨d, hd, rfl, ?_, ?_⟩
    · have : (0 : Int) ≤ 86400 * (d : Int) := by positivity
      omega
    · have : (86400 : Int) * (d : Int) ≤ 86400 * 30 := by
        have : (d : Int) ≤ 30 := by exact_mod_cast hd
        omega
      omega

/-- C3 amended witness: the sales-orders schema at a concrete window. -/
theorem c3_timestamps_amended_witness :
    ∃ rec i', generate_record (fun _ _ => .str "x") SALES_ORDERS 0 86400
        (fun _ => 1) 0 = some (rec, i')
      ∧ ∃ t, getKey? rec SALES_ORDERS.time_field = some (.time t)
        ∧ 0 ≤ t ∧ t ≤ 86400
        ∧ ∀ f ∈ SALES_ORDERS.fields, f.sql_type = "TIMESTAMP" →
            ¬ f.name = SALES_ORDERS.time_field →
            ∃ v, getKey? rec f.name = some v ∧
              ((v = .null ∧ f.nullable = true) ∨ ∃ d : Nat, d ≤ 30
                ∧ v = .time (t + 86400 * (d : Int))
                ∧ 0 ≤ t + 86400 * (d : Int)
                ∧ t + 86400 * (d : Int) ≤ 86400 + 86400 * 30) :=
  c3_timestamps_amended SALES_ORDERS (by decide) (fun _ _ => .str "x")
    (fun _ => 1) 0 86400 (by decide) 0

/-- C5 fails as stated: a nullable field chosen by the 20% draw is not
absent from the record's key set — `ship_date` is present and bound to a
null value. -/
theorem c5_nullable_present_counterexample :
    (generate_record (fun _ _ => .str "x") SALES_ORDERS 0 86400
        (fun _ => 11) 0).map
        (fun p => (containsKey p.1 "ship_date", getKey? p.1 "ship_date"))
      = some (true, some .null) := by
  decide

/-- C5 amended: nullable fields are never absent from a generated
record's key set; the 20% mechanism instead binds the present key to a
null value — when the nullable draw `random_int(1, 10) ≤ 2` fires for a
field, the field ends up bound to `None` (and the first conjunct shows
every nullable field of every registered schema is present). -/
theorem c5_nullable_null_amended :
    (∀ sc ∈ registrySchemas, ∀ (fk : String → Nat → Value) (o : Nat → Nat)
      (s e : Int), s ≤ e → ∀ i,
      ∃ rec i', generate_record fk sc s e o i = some (rec, i')
        ∧ ∀ f ∈ sc.fields, f.nullable = true → containsKey rec f.name = true)
    ∧ (∀ (fk : String → Nat → Value) (o : Nat → Nat) (tf : String)
        (s e : Int) (f : FieldDef) (fs : List FieldDef) (rec : Record)
        (i : Nat) (rec' : Record) (i' : Nat),
        f.nullable = true → isSkippedField f = false →
        (∀ g ∈ fs, ¬ g.name = f.name) →
        genFields fk o tf s e (f :: fs) rec i = some (rec', i') →
        randomInt 1 10 (o (i + 1)) ≤ 2 →
        getKey? rec' f.name = some .null) := by
  constructor
  · intro sc hsc fk o s e hse i
    obtain ⟨rec, i', hgen, _, _, hkeys, _⟩ :=
      registry_master sc hsc fk o s e hse i
    refine ⟨rec, i', hgen, ?_⟩
    intro f hf hnul
    exact hkeys f hf (registry_nullable_not_skipped sc hsc f hf hnul)
  · exact fun fk o tf s e f fs rec i rec' i' h1 h2 h3 h4 h5 =>
      genFields_nullable_head h1 h2 h3 h4 h5

/-- C5 amended witness: the sales-orders schema, and the `ship_date`
field step at a concrete oracle on which the 20% draw fires. -/
theorem c5_nullable_null_amended_witness :
    (∃ rec i', generate_record (fun _ _ => .str "x") SALES_ORDERS 0 86400
        (fun _ => 2) 0 = some (rec, i')
      ∧ ∀ f ∈ SALES_ORDERS.fields, f.nullable = true →
          containsKey rec f.name = true)
    ∧ (∀ rec' i',
        genFields (fun _ _ => .str "x") (fun _ => 1) "order_date" 0 86400
          [⟨"ship_date", "TIMESTAMP", true⟩] [("order_date", .time 0)] 0
          = some (rec', i') →
        getKey? rec' "ship_date" = some .null) :=
  ⟨c5_nullable_null_amended.1 SALES_ORDERS (by decide) (fun _ _ => .str "x")
    (fun _ => 2) 0 86400 (by decide) 0,
   fun rec' i' h4 =>
    c5_nullable_null_amended.2 (fun _ _ => .str "x") (fun _ => 1)
      "order_date" 0 86400 ⟨"ship_date", "TIMESTAMP", true⟩ []
      [("order_date", .time 0)] 0 rec' i' (by decide) (by decide)
      (by intro g hg; cases hg) h4 (by decide)⟩

/-- C4: within one normalizer session over arbitrary record sequences —
`sales_orders` records first, then `manufacturing_orders` records — both
entity tables deduplicate by their key. Customers: the table has one
entry per distinct truthy email in first-seen order bearing ids `1..d`,
each entry carries the attributes of the first record sighting that
email, and every output record with a truthy email carries as
`customer_id` the table id of its email, so equal emails resolve to the
same surrogate id. Products: the same five facts for the SKU key
(`product_sku` with `sku` fallback), the product name, and
`product_id`. Records whose key is Python-falsy carry no dedup key and
create no entity. -/
theorem c4_entity_dedup (recs prods : List Record) :
    ((get_customers_table (normalizeSession recs prods).1).map (·.cemail)
        = dedupFirst [] (truthyKeys (recs.map emailOf))
      ∧ (get_customers_table (normalizeSession recs prods).1).map (·.cid)
        = List.range' 1 (dedupFirst [] (truthyKeys (recs.map emailOf))).length
      ∧ (∀ c ∈ get_customers_table (normalizeSession recs prods).1,
          ∃ r, recs.find? (fun r' => emailOf r' == c.cemail) = some r
            ∧ c.cname = getDefault r "customer_name" (.str "")
            ∧ c.cphone = getDefault r "customer_phone" (.str ""))
      ∧ (normalizeSession recs prods).2.1.length = recs.length
      ∧ (∀ j, j < recs.length → isFalsy (emailOf (recs.getD j [])) = false →
          ∃ c, lookupEntry (normalizeSession recs prods).1.customers
                 (emailOf (recs.getD j [])) = some c
            ∧ getKey? ((normalizeSession recs prods).2.1.getD j [])
                "customer_id" = some (.int c.cid)))
    ∧ ((get_products_table (normalizeSession recs prods).1).map (·.psku)
        = dedupFirst [] (truthyKeys (prods.map skuOf))
      ∧ (get_products_table (normalizeSession recs prods).1).map (·.pid)
        = List.range' 1 (dedupFirst [] (truthyKeys (prods.map skuOf))).length
      ∧ (∀ p ∈ get_products_table (normalizeSession recs prods).1,
          ∃ r, prods.find? (fun r' => skuOf r' == p.psku) = some r
            ∧ p.pname = pnameOf r)
      ∧ (normalizeSession recs prods).2.2.length = prods.length
      ∧ (∀ j, j < prods.length → isFalsy (skuOf (prods.getD j [])) = false →
          ∃ p, lookupEntry (normalizeSession recs prods).1.products
                 (skuOf (prods.getD j [])) = some p
            ∧ getKey? ((normalizeSession recs prods).2.2.getD j [])
                "product_id" = some (.int p.pid))) := by
  have hS1 : (normalizeSession recs prods).1
      = (normalizeAll (normalizeAll initNormState "sales_orders" recs).1
          "manufacturing_orders" prods).1 := rfl
  have hS2 : (normalizeSession recs prods).2.1
      = (normalizeAll initNormState "sales_orders" recs).2 := rfl
  have hS3 : (normalizeSession recs prods).2.2
      = (normalizeAll (normalizeAll initNormState "sales_orders" recs).1
          "manufacturing_orders" prods).2 := rfl
  rw [hS1, hS2, hS3]
  obtain ⟨hc1, _⟩ := normalizeAll_customers recs initNormState
  have hcust1 : (normalizeAll initNormState "sales_orders" recs).1.customers
      = extractAllC [] 1 recs := by
    rw [hc1]
    rfl
  obtain ⟨hp1, hpc1⟩ := normalizeAll_sales_prod_frame recs initNormState
  have hprod1 : (normalizeAll initNormState "sales_orders" recs).1.products
      = [] := hp1
  have hpctr1 : (normalizeAll initNormState
      "sales_orders" recs).1.product_id_counter = 1 := hpc1
  obtain ⟨hcf, _⟩ := normalizeAll_manu_cust_frame prods
    (normalizeAll initNormState "sales_orders" recs).1
  have hcust2 : (normalizeAll (normalizeAll initNormState "sales_orders" recs).1
      "manufacturing_orders" prods).1.customers = extractAllC [] 1 recs := by
    rw [hcf, hcust1]
  obtain ⟨hP1, _⟩ := normalizeAll_products prods
    (normalizeAll initNormState "sales_orders" recs).1
  have hprods2 : (normalizeAll (normalizeAll initNormState "sales_orders" recs).1
      "manufacturing_orders" prods).1.products = extractAllP [] 1 prods := by
    rw [hP1, hprod1, hpctr1]
    rfl
  obtain ⟨hlenS, houtS⟩ := normalizeAll_outputs recs initNormState
    (by decide) (by intro p hp; cases hp)
  obtain ⟨hlenP, houtP⟩ := normalizeAll_products_outputs prods
    (normalizeAll initNormState "sales_orders" recs).1
    (by rw [hpctr1]; decide)
    (by rw [hprod1]; intro p hp; cases hp)
  refine ⟨⟨?_, ?_, ?_, hlenS, ?_⟩, ⟨?_, ?_, ?_, hlenP, houtP⟩⟩
  · unfold get_customers_table
    rw [hcust2, List.map_map]
    exact extractAllC_emails recs [] 1
  · unfold get_customers_table
    rw [hcust2, List.map_map]
    exact extractAllC_ids recs [] 1
  · intro c hc
    unfold get_customers_table at hc
    rw [hcust2] at hc
    obtain ⟨q, hq, hqc⟩ := List.mem_map.mp hc
    obtain ⟨r, hfind, hn, hph, hem⟩ := extractAllC_attrs recs [] 1 q hq
    refine ⟨r, ?_, ?_, ?_⟩
    · rw [← hqc, hem]
      exact hfind
    · rw [← hqc]
      exact hn
    · rw [← hqc]
      exact hph
  · intro j hj hjt
    obtain ⟨c, hcL, hcK⟩ := houtS j hj hjt
    refine ⟨c, ?_, hcK⟩
    rw [hcf]
    exact hcL
  · unfold get_products_table
    rw [hprods2, List.map_map]
    exact extractAllP_skus prods [] 1
  · unfold get_products_table
    rw [hprods2, List.map_map]
    exact extractAllP_ids prods [] 1
  · intro p hp
    unfold get_products_table at hp
    rw [hprods2] at hp
    obtain ⟨q, hq, hqp⟩ := List.mem_map.mp hp
    obtain ⟨r, hfind, hn, hsk⟩ := extractAllP_attrs prods [] 1 q hq
    refine ⟨r, ?_, ?_⟩
    · rw [← hqp, hsk]
      exact hfind
    · rw [← hqp]
      exact hn

/-- C4 witness: the dedup facts of both entity tables at a concrete
mixed input holding duplicate keys, a `sku`-fallback record, and
records without any dedup key. -/
theorem c4_entity_dedup_witness :
    ((get_customers_table (normalizeSession c4recs c4prods).1).map (·.cemail)
        = dedupFirst [] (truthyKeys (c4recs.map emailOf))
      ∧ (get_customers_table (normalizeSession c4recs c4prods).1).map (·.cid)
        = List.range' 1 (dedupFirst [] (truthyKeys (c4recs.map emailOf))).length
      ∧ (∀ c ∈ get_customers_table (normalizeSession c4recs c4prods).1,
          ∃ r, c4recs.find? (fun r' => emailOf r' == c.cemail) = some r
            ∧ c.cname = getDefault r "customer_name" (.str "")
            ∧ c.cphone = getDefault r "customer_phone" (.str ""))
      ∧ (normalizeSession c4recs c4prods).2.1.length = c4recs.length
      ∧ (∀ j, j < c4recs.length → isFalsy (emailOf (c4recs.getD j [])) = false →
          ∃ c, lookupEntry (normalizeSession c4recs c4prods).1.customers
                 (emailOf (c4recs.getD j [])) = some c
            ∧ getKey? ((normalizeSession c4recs c4prods).2.1.getD j [])
                "customer_id" = some (.int c.cid)))
    ∧ ((get_products_table (normalizeSession c4recs c4prods).1).map (·.psku)
        = dedupFirst [] (truthyKeys (c4prods.map skuOf))
      ∧ (get_products_table (normalizeSession c4recs c4prods).1).map (·.pid)
        = List.range' 1 (dedupFirst [] (truthyKeys (c4prods.map skuOf))).length
      ∧ (∀ p ∈ get_products_table (normalizeSession c4recs c4prods).1,
          ∃ r, c4prods.find? (fun r' => skuOf r' == p.psku) = some r
            ∧ p.pname = pnameOf r)
      ∧ (normalizeSession c4recs c4prods).2.2.length = c4prods.length
      ∧ (∀ j, j < c4prods.length → isFalsy (skuOf (c4prods.getD j [])) = false →
          ∃ p, lookupEntry (normalizeSession c4recs c4prods).1.products
                 (skuOf (c4prods.getD j [])) = some p
            ∧ getKey? ((normalizeSession c4recs c4prods).2.2.getD j [])
                "product_id" = some (.int p.pid))) :=
  c4_entity_dedup c4recs c4prods

/-- C8: `generate_batches(total, batch_size)` with positive arguments
yields `⌈total / batch_size⌉` batches; every batch but the last has
exactly `batch_size` records, and the sizes sum to `total`; in
particular `generate_batches(25, 10)` yields sizes `[10, 10, 5]`; and
each batch of `n` records returned by `generate_batch(n)` (for a
registered schema) indeed holds exactly `n` records. -/
theorem c8_generate_batches (total batch_size : Nat) (ht : 0 < total)
    (hb : 0 < batch_size) :
    ((generate_batches_sizes total batch_size).length
        = (total + batch_size - 1) / batch_size
      ∧ (∀ i, i + 1 < (generate_batches_sizes total batch_size).length →
          (generate_batches_sizes total batch_size).getD i 0 = batch_size)
      ∧ (generate_batches_sizes total batch_size).sum = total)
    ∧ generate_batches_sizes 25 10 = [10, 10, 5]
    ∧ (∀ sc ∈ registrySchemas, ∀ (fk : String → Nat → Value) (o : Nat → Nat)
        (s e : Int), s ≤ e → ∀ n i,
        ∃ batch i', generate_batch fk sc s e o n i = some (batch, i')
          ∧ batch.length = n) := by
  refine ⟨generate_batches_sizes_spec total batch_size ht hb, ?_, ?_⟩
  · rw [generate_batches_sizes]
    norm_num
    rw [generate_batches_sizes]
    norm_num
    rw [generate_batches_sizes]
    norm_num
    rw [generate_batches_sizes]
    norm_num
  · intro sc hsc fk o s e hse n i
    obtain ⟨batch, i', hbt⟩ := generate_batch_total hsc fk o hse n i
    exact ⟨batch, i', hbt, generate_batch_length n i batch i' hbt⟩

/-- C8 witness: the spec at `total = 25`, `batch_size = 10`. -/
theorem c8_generate_batches_witness :
    (0 : Nat) < 25 ∧ (0 : Nat) < 10
      ∧ generate_batches_sizes 25 10 = [10, 10, 5] :=
  ⟨by decide, by decide, (c8_generate_batches 25 10 (by decide) (by decide)).2.1⟩

/-- C9: for every schema name other than the three routed ones,
`normalize_record` returns the record unchanged — the exact same
key-value association list — and leaves the normalizer state unchanged. -/
theorem c9_normalize_identity (st : NormState) (record : Record)
    (schema_name : String)
    (h1 : schema_name ≠ "sales_orders") (h2 : schema_name ≠ "invoices")
    (h3 : schema_name ≠ "manufacturing_orders") :
    normalize_record st record schema_name = (st, record) := by
  unfold normalize_record
  rw [show (schema_name == "sales_orders" || schema_name == "invoices")
      = false by simp [h1, h2],
    show (schema_name == "manufacturing_orders") = false by simp [h3]]
  rfl

/-- C9 witness: a contacts record passes through unchanged. -/
theorem c9_normalize_identity_witness :
    normalize_record initNormState
        [("first_name", .str "A"), ("email", .str "a@x.com")] "contacts"
      = (initNormState, [("first_name", .str "A"), ("email", .str "a@x.com")]) :=
  c9_normalize_identity initNormState
    [("first_name", .str "A"), ("email", .str "a@x.com")] "contacts"
    (by decide) (by decide) (by decide)

/-- C10: `normalize_record` never mutates the record passed to it — for
every schema name, including the routed ones, the caller's cell is
bit-identical after the call, and the returned (fresh) cell holds
exactly the record the pure model computes, with the same state. -/
theorem c10_no_input_mutation (st : NormState) (h : Heap) (ref : Nat)
    (schema_name : String) (href : ref < h.length) :
    heapGet (normalize_record_heap st h ref schema_name).2.1 ref = heapGet h ref
    ∧ heapGet (normalize_record_heap st h ref schema_name).2.1
        (normalize_record_heap st h ref schema_name).2.2
      = (normalize_record st (heapGet h ref) schema_name).2
    ∧ (normalize_record_heap st h ref schema_name).1
      = (normalize_record st (heapGet h ref) schema_name).1 := by
  have hne : h.length ≠ ref := by omega
  have hlt : h.length < (h ++ [heapGet h ref]).length := by
    simp only [List.length_append, List.length_cons, List.length_nil]
    omega
  unfold normalize_record_heap normalize_record
  dsimp only
  by_cases hb1 : (schema_name == "sales_orders" || schema_name == "invoices") = true
  · have hb2 : (schema_name == "manufacturing_orders") = false := by
      simp only [Bool.or_eq_true, beq_iff_eq] at hb1
      rcases hb1 with rfl | rfl <;> decide
    rw [if_pos hb1, if_pos hb1, hb2]
    simp only [Bool.false_eq_true, if_false]
    cases hx : _extract_customer st (heapGet h ref) with
    | mk st' cid? =>
      cases cid? with
      | none =>
        exact ⟨heapGet_append_lt h _ href, heapGet_append_self h _, rfl⟩
      | some cid =>
        dsimp only
        by_cases hcid : cid ≠ 0
        · rw [if_pos hcid, if_pos hcid]
          dsimp only
          refine ⟨?_, ?_, rfl⟩
          · rw [heapGet_heapSet_ne _ _ hne, heapGet_heapSet_ne _ _ hne,
              heapGet_heapSet_ne _ _ hne, heapGet_heapSet_ne _ _ hne,
              heapGet_append_lt h _ href]
          · rw [heapGet_heapSet_self _ _
                (by simp only [heapSet, List.length_set, List.length_append,
                  List.length_cons, List.length_nil]; omega),
              heapGet_heapSet_self _ _
                (by simp only [heapSet, List.length_set, List.length_append,
                  List.length_cons, List.length_nil]; omega),
              heapGet_heapSet_self _ _
                (by simp only [heapSet, List.length_set, List.length_append,
                  List.length_cons, List.length_nil]; omega),
              heapGet_heapSet_self _ _
                (by simp only [heapSet, List.length_set, List.length_append,
                  List.length_cons, List.length_nil]; omega),
              heapGet_append_self h _]
        · rw [if_neg hcid, if_neg hcid]
          exact ⟨heapGet_append_lt h _ href, heapGet_append_self h _, rfl⟩
  · rw [if_neg hb1, if_neg hb1]
    by_cases hb2 : (schema_name == "manufacturing_orders") = true
    · rw [if_pos hb2, if_pos hb2]
      dsimp only
      cases hx : _extract_product st (heapGet h ref) with
      | mk st' pid? =>
        cases pid? with
        | none =>
          exact ⟨heapGet_append_lt h _ href, heapGet_append_self h _, rfl⟩
        | some pid =>
          dsimp only
          by_cases hpid : pid ≠ 0
          · rw [if_pos hpid, if_pos hpid]
            dsimp only
            refine ⟨?_, ?_, rfl⟩
            · rw [heapGet_heapSet_ne _ _ hne, heapGet_heapSet_ne _ _ hne,
                heapGet_heapSet_ne _ _ hne, heapGet_append_lt h _ href]
            · rw [heapGet_heapSet_self _ _
                  (by simp only [heapSet, List.length_set, List.length_append,
                    List.length_cons, List.length_nil]; omega),
                heapGet_heapSet_self _ _
                  (by simp only [heapSet, List.length_set, List.length_append,
                    List.length_cons, List.length_nil]; omega),
                heapGet_heapSet_self _ _
                  (by simp only [heapSet, List.length_set, List.length_append,
                    List.length_cons, List.length_nil]; omega),
                heapGet_append_self h _]
          · rw [if_neg hpid, if_neg hpid]
            exact ⟨heapGet_append_lt h _ href, heapGet_append_self h _, rfl⟩
    · rw [if_neg hb2, if_neg hb2]
      exact ⟨heapGet_append_lt h _ href, heapGet_append_self h _, rfl⟩

/-- C10 witness: a concrete sales order in a one-cell heap. -/
theorem c10_no_input_mutation_witness :
    (0 : Nat) < ([[("customer_email", .str "a@x.com")]] : Heap).length
    ∧ (heapGet (normalize_record_heap initNormState
          [[("customer_email", .str "a@x.com")]] 0 "sales_orders").2.1 0
        = heapGet [[("customer_email", .str "a@x.com")]] 0
      ∧ heapGet (normalize_record_heap initNormState
            [[("customer_email", .str "a@x.com")]] 0 "sales_orders").2.1
          (normalize_record_heap initNormState
            [[("customer_email", .str "a@x.com")]] 0 "sales_orders").2.2
        = (normalize_record initNormState
            (heapGet [[("customer_email", .str "a@x.com")]] 0)
            "sales_orders").2
      ∧ (normalize_record_heap initNormState
            [[("customer_email", .str "a@x.com")]] 0 "sales_orders").1
        = (normalize_record initNormState
            (heapGet [[("customer_email", .str "a@x.com")]] 0)
            "sales_orders").1) :=
  ⟨by decide,
   c10_no_input_mutation initNormState [[("customer_email", .str "a@x.com")]]
     0 "sales_orders" (by decide)⟩

/-- C6 fails as stated: when `create_table` raises, the session aborts
and reports the error, but no disconnect is ever attempted — the
`except` handlers of `cmd_seed` return without cleanup, so the trace of
the failing session contains no disconnect call. -/
theorem c6_no_disconnect_counterexample :
    (cmd_seed_run failingCreateBehavior flatSeedArgs).1 = false
    ∧ SeedMsg.errorReport ∈ (cmd_seed_run failingCreateBehavior flatSeedArgs).2.msgs
    ∧ SeedOp.opDisconnect ∉ (cmd_seed_run failingCreateBehavior flatSeedArgs).2.trace := by
  decide

/-- C6 amended: on any exception during the session after validation the
orchestrator aborts and reports the error, the trace ends at the raising
operation (so nothing — in particular no retry — happens after the
failure), but the disconnect cleanup is NOT attempted: a disconnect
appears in a failing session's trace only when the disconnect call
itself was the raising operation. -/
theorem c6_failure_aborts_without_disconnect (b : Behavior) (a : SeedArgs)
    (hfail : (cmd_seed_run b a).1 = false) :
    SeedMsg.errorReport ∈ (cmd_seed_run b a).2.msgs
    ∧ (∃ op, (cmd_seed_run b a).2.trace.getLast? = some op
        ∧ opFails b op = true)
    ∧ (SeedOp.opDisconnect ∈ (cmd_seed_run b a).2.trace →
        b.disconnect_ok = false) := by
  unfold cmd_seed_run at hfail ⊢
  dsimp only at hfail ⊢
  cases hb : seedBody b a
      ⟨[], if a.normalize && !b.supports_normalization
           then [SeedMsg.warnFlatMode] else []⟩ with
  | ok st' =>
    rw [hb] at hfail
    simp at hfail
  | error st' =>
    rw [hb] at hfail
    dsimp only
    obtain ⟨hmsg, hlast, hdisc⟩ := seedBody_error b a _ st' hb
    refine ⟨?_, hlast, ?_⟩
    · rw [hmsg]
      exact List.mem_append_right _ (List.mem_singleton.mpr rfl)
    · intro hmem
      exact hdisc (by intro hx; cases hx) hmem

/-- C6 amended witness: the failing-create behavior. -/
theorem c6_failure_witness :
    SeedMsg.errorReport ∈ (cmd_seed_run failingCreateBehavior flatSeedArgs).2.msgs
    ∧ (∃ op, (cmd_seed_run failingCreateBehavior flatSeedArgs).2.trace.getLast?
          = some op ∧ opFails failingCreateBehavior op = true)
    ∧ (SeedOp.opDisconnect ∈ (cmd_seed_run failingCreateBehavior flatSeedArgs).2.trace →
        failingCreateBehavior.disconnect_ok = false) :=
  c6_failure_aborts_without_disconnect failingCreateBehavior flatSeedArgs
    (by decide)

/-- C7: requesting normalization against a backend with
`supports_normalization = false` demotes the session to flat mode with a
warning instead of failing: the session completes successfully, the
flat-mode warning is emitted, and no normalized-table or entity
insertion call is ever made. -/
theorem c7_normalization_demoted (b : Behavior) (a : SeedArgs)
    (hreq : a.normalize = true) (hsup : b.supports_normalization = false)
    (hc : b.connect_ok = true) (hcr : b.create_ok = true)
    (hins : ∀ i, b.insert_ok i = true) (hcnt : b.count_ok = true)
    (hdis : b.disconnect_ok = true) :
    (cmd_seed_run b a).1 = true
    ∧ SeedMsg.warnFlatMode ∈ (cmd_seed_run b a).2.msgs
    ∧ SeedMsg.successReport ∈ (cmd_seed_run b a).2.msgs
    ∧ SeedOp.opCreateNorm ∉ (cmd_seed_run b a).2.trace
    ∧ SeedOp.opInsertEntities ∉ (cmd_seed_run b a).2.trace := by
  have hnorm : (a.normalize && b.supports_normalization) = false := by
    rw [hreq, hsup]
    rfl
  obtain ⟨st', hok, hmsg, hshape⟩ := seedBody_flat_ok b a
    ⟨[], if a.normalize && !b.supports_normalization
         then [SeedMsg.warnFlatMode] else []⟩
    hnorm hc hcr hins hcnt hdis
  unfold cmd_seed_run
  dsimp only
  rw [hok]
  dsimp only
  have hwarn : (if a.normalize && !b.supports_normalization
      then [SeedMsg.warnFlatMode] else []) = [SeedMsg.warnFlatMode] := by
    rw [hreq, hsup]
    rfl
  refine ⟨rfl, ?_, ?_, ?_, ?_⟩
  · rw [hmsg]
    dsimp only
    rw [hwarn]
    exact List.mem_append_left _ (List.mem_singleton.mpr rfl)
  · rw [hmsg]
    exact List.mem_append_right _ (List.mem_singleton.mpr rfl)
  · intro hmem
    rcases hshape _ hmem with hq | hq | ⟨t, hq⟩ | hq | ⟨i, hq⟩ | hq | hq
    · cases hq
    · cases hq
    · cases hq
    · cases hq
    · cases hq
    · cases hq
    · cases hq
  · intro hmem
    rcases hshape _ hmem with hq | hq | ⟨t, hq⟩ | hq | ⟨i, hq⟩ | hq | hq
    · cases hq
    · cases hq
    · cases hq
    · cases hq
    · cases hq
    · cases hq
    · cases hq

/-- C7 witness: the normalization-free behavior with a normalization
request. -/
theorem c7_normalization_demoted_witness :
    (cmd_seed_run noNormBehavior normSeedArgs).1 = true
    ∧ SeedMsg.warnFlatMode ∈ (cmd_seed_run noNormBehavior normSeedArgs).2.msgs
    ∧ SeedMsg.successReport ∈ (cmd_seed_run noNormBehavior normSeedArgs).2.msgs
    ∧ SeedOp.opCreateNorm ∉ (cmd_seed_run noNormBehavior normSeedArgs).2.trace
    ∧ SeedOp.opInsertEntities ∉ (cmd_seed_run noNormBehavior normSeedArgs).2.trace :=
  c7_normalization_demoted noNormBehavior normSeedArgs rfl rfl rfl rfl
    (fun _ => rfl) rfl rfl

end Seed

